import Mathlib

/-!
# Cube demo (`script.js`): mesh generation, camera keys and frame update

A shallow embedding of the numeric core of `script.js`.

The mesh generator and the key handler are written once, over any number type
with the operations of `JSArith`.  Two number types are given:

* `JSNum`, the numbers of the program: binary64 values with `Infinity` and
  `NaN`, every operation rounded to nearest (ties to even), and the matrix
  library's arrays holding binary32 values (`fround`).  The sign of zero is
  not represented; no operation of the embedded code can observe it.
* `ℚ`, exact arithmetic, in which the frame loop is written: there the real
  functions `Math.hypot`, `Math.sin`, `Math.cos` and `Math.PI` are parameters
  (`MathOps`).
-/

namespace Cubes

/-! ## Binary floating-point rounding -/

/-- The power `2 ^ k` for an integer exponent `k`, as a rational. -/
def pow2 (k : ℤ) : ℚ :=
  if 0 ≤ k then ((2 ^ k.toNat : ℕ) : ℚ) else 1 / ((2 ^ (-k).toNat : ℕ) : ℚ)

/-- Halve `n` until it drops below 2, at most `fuel` times, counting the
halvings. -/
def log2Fuel : ℕ → ℕ → ℕ
  | 0, _ => 0
  | fuel + 1, n => if n < 2 then 0 else log2Fuel fuel (n / 2) + 1

/-- The binary logarithm of a natural number, rounded down (`0` at `0`). -/
def natLog2 (n : ℕ) : ℕ := log2Fuel n n

/-- The binary exponent of a positive rational `a`: the integer `e` with
`2 ^ e ≤ a < 2 ^ (e + 1)`. -/
def ilog2 (a : ℚ) : ℤ :=
  let c : ℤ := (natLog2 a.num.natAbs : ℤ) - (natLog2 a.den : ℤ)
  if pow2 c ≤ a then c else c - 1

/-- Round a positive rational to the nearest multiple of the spacing of binary
floating-point numbers with `prec` significant bits and least normal exponent
`emin` (ties to the even multiple); the exponent is not bounded above. -/
def roundMag (prec : ℕ) (emin : ℤ) (a : ℚ) : ℚ :=
  let e := max (ilog2 a) emin
  let k := e - ((prec : ℤ) - 1)
  let A := a.num.natAbs * 2 ^ (-k).toNat
  let B := a.den * 2 ^ k.toNat
  let f := A / B
  let ρ := A % B
  let n := if 2 * ρ < B then f else if B < 2 * ρ then f + 1 else f + f % 2
  (n : ℚ) * pow2 k

/-- A JavaScript number: a finite value, `Infinity`, `-Infinity` or `NaN`.
Finite values are carried as rationals; `+0` and `-0` are both `fin 0`. -/
inductive JSNum where
  | fin (q : ℚ)
  | posInf
  | negInf
  | nan
deriving DecidableEq, Repr

/-- Round a rational to the binary floating-point format with `prec`
significant bits and exponent range `emin .. emax`: to nearest, ties to even,
with gradual underflow, and to an infinity once the rounded magnitude reaches
`2 ^ (emax + 1)`. -/
def roundBin (prec : ℕ) (emin emax : ℤ) (q : ℚ) : JSNum :=
  if q = 0 then .fin 0
  else if pow2 (emax + 1) ≤ roundMag prec emin |q| then
    (if q < 0 then .negInf else .posInf)
  else .fin (if q < 0 then -roundMag prec emin |q| else roundMag prec emin |q|)

/-- Rounding to binary64, the format of every JavaScript number. -/
def round64 (q : ℚ) : JSNum := roundBin 53 (-1022) 1023 q

/-- Rounding to binary32, the format of the entries of a `Float32Array`. -/
def round32 (q : ℚ) : JSNum := roundBin 24 (-126) 127 q

namespace JSNum

/-- Unary minus. -/
def neg : JSNum → JSNum
  | fin q => fin (-q)
  | posInf => negInf
  | negInf => posInf
  | nan => nan

/-- The operator `+` on numbers. -/
def add : JSNum → JSNum → JSNum
  | fin a, fin b => round64 (a + b)
  | nan, _ => nan
  | _, nan => nan
  | posInf, negInf => nan
  | negInf, posInf => nan
  | posInf, _ => posInf
  | _, posInf => posInf
  | negInf, _ => negInf
  | _, negInf => negInf

/-- The operator `-` on numbers. -/
def sub (a b : JSNum) : JSNum := add a (neg b)

/-- The infinity of the sign of `a * b`, or `NaN` when `b` is zero; used for a
product with one infinite factor, `a` being `1` or `-1` for its sign. -/
def infBySign (a b : ℚ) : JSNum :=
  if a * b = 0 then nan else if 0 < a * b then posInf else negInf

/-- The operator `*` on numbers. -/
def mul : JSNum → JSNum → JSNum
  | fin a, fin b => round64 (a * b)
  | nan, _ => nan
  | _, nan => nan
  | posInf, fin b => infBySign 1 b
  | negInf, fin b => infBySign (-1) b
  | fin a, posInf => infBySign 1 a
  | fin a, negInf => infBySign (-1) a
  | posInf, posInf => posInf
  | negInf, negInf => posInf
  | posInf, negInf => negInf
  | negInf, posInf => negInf

/-- The operator `/` on numbers.  A zero divisor is taken as `+0` (the sign of
zero is not represented); the embedded code never divides by zero, its only
divisor being `w || 1.0`. -/
def div : JSNum → JSNum → JSNum
  | fin a, fin b =>
    if b = 0 then (if a = 0 then nan else if 0 < a then posInf else negInf)
    else round64 (a / b)
  | nan, _ => nan
  | _, nan => nan
  | fin _, posInf => fin 0
  | fin _, negInf => fin 0
  | posInf, fin b => if b < 0 then negInf else posInf
  | negInf, fin b => if b < 0 then posInf else negInf
  | posInf, posInf => nan
  | posInf, negInf => nan
  | negInf, posInf => nan
  | negInf, negInf => nan

/-- The function `Math.fround`: what reading back a number stored in a
`Float32Array` gives. -/
def fround : JSNum → JSNum
  | fin q => round32 q
  | posInf => posInf
  | negInf => negInf
  | nan => nan

/-- Whether a number is falsy (`0` or `NaN`), as `||` tests it. -/
def falsy : JSNum → Bool
  | fin q => decide (q = 0)
  | nan => true
  | _ => false

end JSNum

/-- The arithmetic the embedded code uses on its numbers: the value of a
numeric literal, the four operators, a store into one of the matrix library's
arrays, and falsiness. -/
class JSArith (α : Type) where
  /-- The number a numeric literal denotes. -/
  lit : ℚ → α
  /-- The operator `+`. -/
  add : α → α → α
  /-- The operator `-`. -/
  sub : α → α → α
  /-- The operator `*`. -/
  mul : α → α → α
  /-- The operator `/`. -/
  div : α → α → α
  /-- The value read back from an entry of one of the matrix library's arrays
  after a number is stored in it. -/
  fround : α → α
  /-- Whether a number is falsy. -/
  falsy : α → Bool

/-- The arithmetic of the program: binary64 operations, binary32 arrays. -/
instance instJSArithJSNum : JSArith JSNum where
  lit := round64
  add := JSNum.add
  sub := JSNum.sub
  mul := JSNum.mul
  div := JSNum.div
  fround := JSNum.fround
  falsy := JSNum.falsy

/-- Exact arithmetic on rationals, nothing rounded. -/
instance instJSArithRat : JSArith ℚ where
  lit := fun q => q
  add := fun a b => a + b
  sub := fun a b => a - b
  mul := fun a b => a * b
  div := fun a b => a / b
  fround := fun q => q
  falsy := fun q => decide (q = 0)

open JSArith

/-! ## Numeric containers -/

/-- A length-3 array `[v[0], v[1], v[2]]`. -/
structure Vec3 (α : Type) where
  /-- Component `v[0]`. -/
  c0 : α
  /-- Component `v[1]`. -/
  c1 : α
  /-- Component `v[2]`. -/
  c2 : α
deriving DecidableEq, Repr

/-- A length-16 array holding a 4x4 matrix in column-major order,
`m[0] .. m[15]`. -/
structure Mat4 (α : Type) where
  m0 : α
  m1 : α
  m2 : α
  m3 : α
  m4 : α
  m5 : α
  m6 : α
  m7 : α
  m8 : α
  m9 : α
  m10 : α
  m11 : α
  m12 : α
  m13 : α
  m14 : α
  m15 : α
deriving DecidableEq, Repr

/-- The built-in real functions the frame loop reaches through `Math`; they are
not rational-valued in general, so the embedding takes them as parameters. -/
structure MathOps where
  /-- The function `Math.hypot(a, b, c)`. -/
  hypot : ℚ → ℚ → ℚ → ℚ
  /-- The function `Math.sin`. -/
  sin : ℚ → ℚ
  /-- The function `Math.cos`. -/
  cos : ℚ → ℚ
  /-- The constant `Math.PI`. -/
  pi : ℚ

/-! ## Camera state and the `keydown` handler (lines 148-176) -/

/-- The two arrays the `keydown` handler mutates. -/
structure CameraState (α : Type) where
  cameraPosition : Vec3 α
  observationPosition : Vec3 α
deriving DecidableEq, Repr

/-- The step `const movementSpeed = 0.1;`. -/
def movementSpeed {α : Type} [JSArith α] : α := lit 0.1

/-- The initial arrays `cameraPosition = [0, 0, -4]` and
`observationPosition = [0, 0, 0]`. -/
def initialCamera {α : Type} [JSArith α] : CameraState α :=
  { cameraPosition := ⟨lit 0, lit 0, lit (-4)⟩, observationPosition := ⟨lit 0, lit 0, lit 0⟩ }

/-- The `keydown` listener: a `switch` on `event.key` with four cases and no
default; `+=` and `-=` are the operators `+` and `-` of the number type. -/
def keydown {α : Type} [JSArith α] (st : CameraState α) (key : String) : CameraState α :=
  match key with
  | "ArrowUp" =>
    { cameraPosition :=
        { st.cameraPosition with c2 := add st.cameraPosition.c2 movementSpeed },
      observationPosition :=
        { st.observationPosition with c2 := add st.observationPosition.c2 movementSpeed } }
  | "ArrowDown" =>
    { cameraPosition :=
        { st.cameraPosition with c2 := sub st.cameraPosition.c2 movementSpeed },
      observationPosition :=
        { st.observationPosition with c2 := sub st.observationPosition.c2 movementSpeed } }
  | "ArrowLeft" =>
    { cameraPosition :=
        { st.cameraPosition with c0 := add st.cameraPosition.c0 movementSpeed },
      observationPosition :=
        { st.observationPosition with c0 := add st.observationPosition.c0 movementSpeed } }
  | "ArrowRight" =>
    { cameraPosition :=
        { st.cameraPosition with c0 := sub st.cameraPosition.c0 movementSpeed },
      observationPosition :=
        { st.observationPosition with c0 := sub st.observationPosition.c0 movementSpeed } }
  | _ => st

/-- The camera state after a finite sequence of key events, oldest first. -/
def keydowns {α : Type} [JSArith α] (st : CameraState α) (keys : List String) :
    CameraState α :=
  keys.foldl keydown st

/-- Componentwise difference `a - b` of rational vectors. -/
def Vec3.sub (a b : Vec3 ℚ) : Vec3 ℚ := ⟨a.c0 - b.c0, a.c1 - b.c1, a.c2 - b.c2⟩

/-! ## The matrix library (`glMatrix`), as far as the program calls it

The library is loaded by the page and is not part of `script.js`; each function
is modelled as the function from its inputs (and, where the library may leave
the output array untouched, the old output) to the new content of `out`.  Its
vectors and matrices are `Float32Array`s: every number written into one goes
through `fround`, while the arithmetic on the numbers read back is that of
ordinary numbers. -/

/-- Modelled from the spec: `glMatrix.EPSILON`, the library's tolerance
constant (not in `script.js`), `0.000001`. -/
def EPSILON : ℚ := 0.000001

/-- Modelled from the spec: `mat4.create()` of the matrix library (not in
`script.js`), a fresh identity matrix. -/
def Mat4.create {α : Type} [JSArith α] : Mat4 α :=
  ⟨fround (lit 1), fround (lit 0), fround (lit 0), fround (lit 0),
   fround (lit 0), fround (lit 1), fround (lit 0), fround (lit 0),
   fround (lit 0), fround (lit 0), fround (lit 1), fround (lit 0),
   fround (lit 0), fround (lit 0), fround (lit 0), fround (lit 1)⟩

/-- Modelled from the spec: `mat4.scale(out, a, v)` of the matrix library (not
in `script.js`), the "uniform-scale transform": `a` times the scaling by `v`,
i.e. the first three columns of `a` multiplied by `v[0]`, `v[1]`, `v[2]`. -/
def Mat4.scale {α : Type} [JSArith α] (a : Mat4 α) (v : Vec3 α) : Mat4 α :=
  ⟨fround (mul a.m0 v.c0), fround (mul a.m1 v.c0), fround (mul a.m2 v.c0),
   fround (mul a.m3 v.c0),
   fround (mul a.m4 v.c1), fround (mul a.m5 v.c1), fround (mul a.m6 v.c1),
   fround (mul a.m7 v.c1),
   fround (mul a.m8 v.c2), fround (mul a.m9 v.c2), fround (mul a.m10 v.c2),
   fround (mul a.m11 v.c2),
   fround a.m12, fround a.m13, fround a.m14, fround a.m15⟩

/-- Modelled from the spec: `mat4.translate(out, a, v)` of the matrix library
(not in `script.js`), the "translation transform", called with `out` and `a`
the same array: `a` times the translation by `v`, i.e. the last column of `a`
replaced by `a * (v, 1)`, each sum evaluated left to right. -/
def Mat4.translate {α : Type} [JSArith α] (a : Mat4 α) (v : Vec3 α) : Mat4 α :=
  { a with
    m12 := fround (add (add (add (mul a.m0 v.c0) (mul a.m4 v.c1)) (mul a.m8 v.c2)) a.m12)
    m13 := fround (add (add (add (mul a.m1 v.c0) (mul a.m5 v.c1)) (mul a.m9 v.c2)) a.m13)
    m14 := fround (add (add (add (mul a.m2 v.c0) (mul a.m6 v.c1)) (mul a.m10 v.c2)) a.m14)
    m15 := fround (add (add (add (mul a.m3 v.c0) (mul a.m7 v.c1)) (mul a.m11 v.c2)) a.m15) }

/-- Modelled from the spec: `vec3.fromValues(x, y, z)` of the matrix library
(not in `script.js`), a fresh vector holding the three numbers. -/
def Vec3.fromValues {α : Type} [JSArith α] (x y z : α) : Vec3 α :=
  ⟨fround x, fround y, fround z⟩

/-- Modelled from the spec: `vec3.transformMat4(out, a, m)` of the matrix
library (not in `script.js`): the point `(a, 1)` multiplied by `m` and divided
by the resulting fourth coordinate `w`, where a falsy `w` is replaced by `1`
(`w = w || 1.0`); each sum is evaluated left to right. -/
def Vec3.transformMat4 {α : Type} [JSArith α] (a : Vec3 α) (m : Mat4 α) : Vec3 α :=
  let w := add (add (add (mul m.m3 a.c0) (mul m.m7 a.c1)) (mul m.m11 a.c2)) m.m15
  let w := if falsy w then lit 1.0 else w
  ⟨fround (div (add (add (add (mul m.m0 a.c0) (mul m.m4 a.c1)) (mul m.m8 a.c2)) m.m12) w),
   fround (div (add (add (add (mul m.m1 a.c0) (mul m.m5 a.c1)) (mul m.m9 a.c2)) m.m13) w),
   fround (div (add (add (add (mul m.m2 a.c0) (mul m.m6 a.c1)) (mul m.m10 a.c2)) m.m14) w)⟩

/-- Modelled from the spec: `mat4.rotate(out, a, rad, axis)` of the matrix
library (not in `script.js`), "rotation applied about axis ... to the
matrix": `a` times the rotation by `rad` about the normalised `axis`.  When the
axis is shorter than `EPSILON` the library returns `null` and leaves `out` as
it was; otherwise the rotated 3x3 block is written and the last column of `a`
copied.  The result is the content of `out` after the call. -/
def Mat4.rotate (ops : MathOps) (out a : Mat4 ℚ) (rad : ℚ) (axis : Vec3 ℚ) : Mat4 ℚ :=
  let len := ops.hypot axis.c0 axis.c1 axis.c2
  if len < EPSILON then out
  else
    let len := 1 / len
    let x := axis.c0 * len
    let y := axis.c1 * len
    let z := axis.c2 * len
    let s := ops.sin rad
    let c := ops.cos rad
    let t := 1 - c
    let b00 := x * x * t + c
    let b01 := y * x * t + z * s
    let b02 := z * x * t - y * s
    let b10 := x * y * t - z * s
    let b11 := y * y * t + c
    let b12 := z * y * t + x * s
    let b20 := x * z * t + y * s
    let b21 := y * z * t - x * s
    let b22 := z * z * t + c
    ⟨a.m0 * b00 + a.m4 * b01 + a.m8 * b02,
     a.m1 * b00 + a.m5 * b01 + a.m9 * b02,
     a.m2 * b00 + a.m6 * b01 + a.m10 * b02,
     a.m3 * b00 + a.m7 * b01 + a.m11 * b02,
     a.m0 * b10 + a.m4 * b11 + a.m8 * b12,
     a.m1 * b10 + a.m5 * b11 + a.m9 * b12,
     a.m2 * b10 + a.m6 * b11 + a.m10 * b12,
     a.m3 * b10 + a.m7 * b11 + a.m11 * b12,
     a.m0 * b20 + a.m4 * b21 + a.m8 * b22,
     a.m1 * b20 + a.m5 * b21 + a.m9 * b22,
     a.m2 * b20 + a.m6 * b21 + a.m10 * b22,
     a.m3 * b20 + a.m7 * b21 + a.m11 * b22,
     a.m12, a.m13, a.m14, a.m15⟩

/-- Scale a vector by `1 / len`, or zero it when `len` is zero (the library's
`if (!len) ... else ...` normalisation step). -/
def Vec3.normalizeBy (v : Vec3 ℚ) (len : ℚ) : Vec3 ℚ :=
  if len = 0 then ⟨0, 0, 0⟩
  else ⟨v.c0 * (1 / len), v.c1 * (1 / len), v.c2 * (1 / len)⟩

/-- Modelled from the spec: `mat4.lookAt(out, eye, center, up)` of the matrix
library (not in `script.js`), the "look-at transform from camera position
toward observation target with a fixed up vector": the standard right-handed
look-at matrix.  `z` is the unit vector from `center` to `eye`, `x = up × z`
and `y = z × x` normalised; the rows of the rotation are `x`, `y`, `z` and the
translation is `-(x·eye), -(y·eye), -(z·eye)`.  When `eye` and `center`
agree within `EPSILON` in every component the result is the identity. -/
def Mat4.lookAt (ops : MathOps) (eye center up : Vec3 ℚ) : Mat4 ℚ :=
  if |eye.c0 - center.c0| < EPSILON ∧ |eye.c1 - center.c1| < EPSILON
      ∧ |eye.c2 - center.c2| < EPSILON then Mat4.create
  else
    let z0 := eye.c0 - center.c0
    let z1 := eye.c1 - center.c1
    let z2 := eye.c2 - center.c2
    let len := 1 / ops.hypot z0 z1 z2
    let z0 := z0 * len
    let z1 := z1 * len
    let z2 := z2 * len
    let x0 := up.c1 * z2 - up.c2 * z1
    let x1 := up.c2 * z0 - up.c0 * z2
    let x2 := up.c0 * z1 - up.c1 * z0
    let x := Vec3.normalizeBy ⟨x0, x1, x2⟩ (ops.hypot x0 x1 x2)
    let y0 := z1 * x.c2 - z2 * x.c1
    let y1 := z2 * x.c0 - z0 * x.c2
    let y2 := z0 * x.c1 - z1 * x.c0
    let y := Vec3.normalizeBy ⟨y0, y1, y2⟩ (ops.hypot y0 y1 y2)
    ⟨x.c0, y.c0, z0, 0,
     x.c1, y.c1, z1, 0,
     x.c2, y.c2, z2, 0,
     -(x.c0 * eye.c0 + x.c1 * eye.c1 + x.c2 * eye.c2),
     -(y.c0 * eye.c0 + y.c1 * eye.c1 + y.c2 * eye.c2),
     -(z0 * eye.c0 + z1 * eye.c1 + z2 * eye.c2),
     1⟩

/-! ## `generateCubeVerts` (lines 224-284) -/

/-- The canonical cube, a flat list of 8 corners (lines 229-239). -/
def startCubeVerts {α : Type} [JSArith α] : List α :=
  [lit (-1.0), lit 1.0, lit 1.0,
   lit 1.0, lit 1.0, lit 1.0,
   lit 1.0, lit (-1.0), lit 1.0,
   lit (-1.0), lit (-1.0), lit 1.0,
   lit (-1.0), lit 1.0, lit (-1.0),
   lit 1.0, lit 1.0, lit (-1.0),
   lit 1.0, lit (-1.0), lit (-1.0),
   lit (-1.0), lit (-1.0), lit (-1.0)]

/-- The triangle list (lines 241-255), in the source's face order
"Front, Back, Top, Bottom, Left, Right". -/
def boxIndices : List ℕ :=
  [4, 5, 6,   4, 6, 7,
   0, 2, 1,   0, 3, 2,
   1, 5, 0,   0, 5, 4,
   3, 6, 2,   3, 7, 6,
   1, 2, 5,   5, 2, 6,
   0, 4, 3,   4, 7, 3]

/-- The object `generateCubeVerts` returns. -/
structure CubeMesh (α : Type) where
  vertices : List α
  indices : List ℕ
deriving DecidableEq, Repr

/-- The `for (let i = 0; i < startCubeVerts.length; i += 3)` loop of lines
265-278, from index `i` with `acc` the array pushed so far.  `fuel` bounds the
number of iterations; `verts.length` is always enough since `i` grows by 3.
An index past the end reads as `0` (it is never reached for a list whose
length is a multiple of 3). -/
def cubeLoop {α : Type} [JSArith α] (verts : List α) (scaleMatrix translationMatrix : Mat4 α) :
    ℕ → ℕ → List α → List α
  | 0, _, acc => acc
  | fuel + 1, i, acc =>
    if i < verts.length then
      let vert := Vec3.fromValues (verts.getD i (lit 0)) (verts.getD (i + 1) (lit 0))
        (verts.getD (i + 2) (lit 0))
      let vert := Vec3.transformMat4 vert scaleMatrix
      let vert := Vec3.transformMat4 vert translationMatrix
      cubeLoop verts scaleMatrix translationMatrix fuel (i + 3) (acc ++ [vert.c0, vert.c1, vert.c2])
    else acc

/-- The function `generateCubeVerts(x_pos, y_pos, z_pos, scaling_factor)`. -/
def generateCubeVerts {α : Type} [JSArith α] (x_pos y_pos z_pos scaling_factor : α) :
    CubeMesh α :=
  let scaleMatrix := Mat4.scale Mat4.create ⟨scaling_factor, scaling_factor, scaling_factor⟩
  let translationMatrix := Mat4.translate Mat4.create ⟨x_pos, y_pos, z_pos⟩
  { vertices :=
      cubeLoop startCubeVerts scaleMatrix translationMatrix
        (startCubeVerts : List α).length 0 []
    indices := boxIndices }

/-! ## The frame loop (lines 145-146, 178-197) -/

/-- The mutable values one tick of `loop` reads or writes. -/
structure FrameState where
  worldMatrix : Mat4 ℚ
  viewMatrix : Mat4 ℚ
  angle : ℚ
  camera : CameraState ℚ

/-- The constant `const identityMat = mat4.create();` (never written
afterwards). -/
def identityMat : Mat4 ℚ := Mat4.create

/-- The state when the first frame is requested: `worldMatrix = mat4.create()`,
`viewMatrix` set by `mat4.lookAt(viewMatrix, [0, 0, -6], [0, 0, 0], [0, 1, 0])`,
`angle = 0` and the initial camera. -/
def initialFrame (ops : MathOps) : FrameState :=
  { worldMatrix := Mat4.create
    viewMatrix := Mat4.lookAt ops ⟨0, 0, -6⟩ ⟨0, 0, 0⟩ ⟨0, 1, 0⟩
    angle := 0
    camera := initialCamera }

/-- One tick of `loop`, with `now` the value `performance.now()` returns
(milliseconds).  The uniform uploads, clear and draw calls do not change this
state. -/
def loop (ops : MathOps) (st : FrameState) (now : ℚ) : FrameState :=
  let angle := now / 1000 / 60 * 23 * ops.pi
  let worldMatrix := Mat4.rotate ops st.worldMatrix identityMat angle ⟨1.0, 1.0, 1.0⟩
  let viewMatrix :=
    Mat4.lookAt ops st.camera.cameraPosition st.camera.observationPosition ⟨0, 1, 0⟩
  { worldMatrix := worldMatrix, viewMatrix := viewMatrix, angle := angle, camera := st.camera }

/-! ## Vocabulary of the properties -/

/-- A rational is representable in the binary format with `prec` significant
bits and exponent range `emin .. emax`: its magnitude is `N * 2 ^ j` with
`N < 2 ^ prec`, `j` not below the exponent of the least subnormal, and it is
below `2 ^ (emax + 1)`. -/
def Rep (prec : ℕ) (emin emax : ℤ) (q : ℚ) : Prop :=
  ∃ (N : ℕ) (j : ℤ), |q| = (N : ℚ) * (2 : ℚ) ^ j ∧ N < 2 ^ prec ∧
    emin - ((prec : ℤ) - 1) ≤ j ∧ |q| < (2 : ℚ) ^ (emax + 1)

/-- The eight corners of the canonical cube in the order the specification
lists them. -/
def canonicalCorners : List (Vec3 ℚ) :=
  [⟨-1, 1, 1⟩, ⟨1, 1, 1⟩, ⟨1, -1, 1⟩, ⟨-1, -1, 1⟩,
   ⟨-1, 1, -1⟩, ⟨1, 1, -1⟩, ⟨1, -1, -1⟩, ⟨-1, -1, -1⟩]

/-- The coordinate the program computes on one axis for a corner with sign `c`
on that axis, position `p` on that axis and single-precision scale `sf`: the
scaled corner `c * sf` plus the position stored in single precision, the sum
rounded to a number and then stored in single precision. -/
def roundedCoord (sf p c : ℚ) : JSNum :=
  JSNum.fround (JSNum.add (.fin (c * sf)) (round32 p))

/-- The value of a finite number (`0` for `Infinity`, `-Infinity` and `NaN`). -/
def JSNum.toRat : JSNum → ℚ
  | .fin q => q
  | _ => 0

/-- Whether a number is finite. -/
def JSNum.isFinite : JSNum → Bool
  | .fin _ => true
  | _ => false

/-- The values of a list of numbers. -/
def values (vs : List JSNum) : List ℚ := vs.map JSNum.toRat

/-- Vertex `k` of a flat coordinate list read as consecutive triples (the
layout `vertexAttribPointer(..., 3, gl.FLOAT, ..., 0, 0)` declares). -/
def vertexAt {α : Type} [JSArith α] (vs : List α) (k : ℕ) : Vec3 α :=
  ⟨vs.getD (3 * k) (lit 0), vs.getD (3 * k + 1) (lit 0), vs.getD (3 * k + 2) (lit 0)⟩

/-- The consecutive index triples of an index list (`gl.TRIANGLES`). -/
def triangles : List ℕ → List (ℕ × ℕ × ℕ)
  | a :: b :: c :: rest => (a, b, c) :: triangles rest
  | _ => []

/-- Componentwise sum. -/
def Vec3.add (a b : Vec3 ℚ) : Vec3 ℚ := ⟨a.c0 + b.c0, a.c1 + b.c1, a.c2 + b.c2⟩

/-- Multiplication of a vector by a number. -/
def Vec3.smul (k : ℚ) (a : Vec3 ℚ) : Vec3 ℚ := ⟨k * a.c0, k * a.c1, k * a.c2⟩

/-- Cross product. -/
def Vec3.cross (a b : Vec3 ℚ) : Vec3 ℚ :=
  ⟨a.c1 * b.c2 - a.c2 * b.c1, a.c2 * b.c0 - a.c0 * b.c2, a.c0 * b.c1 - a.c1 * b.c0⟩

/-- Dot product. -/
def Vec3.dot (a b : Vec3 ℚ) : ℚ := a.c0 * b.c0 + a.c1 * b.c1 + a.c2 * b.c2

/-- The normal `(v_b - v_a) × (v_c - v_a)` of the triangle `(a, b, c)` over the
vertex list `vs`. -/
def triangleNormal (vs : List ℚ) (t : ℕ × ℕ × ℕ) : Vec3 ℚ :=
  (((vertexAt vs t.2.1).sub (vertexAt vs t.1)).cross ((vertexAt vs t.2.2).sub (vertexAt vs t.1)))

/-- The centroid of the triangle `(a, b, c)` over the vertex list `vs`. -/
def triangleCentroid (vs : List ℚ) (t : ℕ × ℕ × ℕ) : Vec3 ℚ :=
  Vec3.smul (1 / 3) (((vertexAt vs t.1).add (vertexAt vs t.2.1)).add (vertexAt vs t.2.2))

/-- The six axis directions `+x, -x, +y, -y, +z, -z`. -/
def axisDirections : List (Vec3 ℚ) :=
  [⟨1, 0, 0⟩, ⟨-1, 0, 0⟩, ⟨0, 1, 0⟩, ⟨0, -1, 0⟩, ⟨0, 0, 1⟩, ⟨0, 0, -1⟩]

/-- The vector `n` is a positive multiple of the direction `d`. -/
def pointsAlong (d n : Vec3 ℚ) : Prop := 0 < n.dot d ∧ n.cross d = ⟨0, 0, 0⟩

instance instDecidablePointsAlong (d n : Vec3 ℚ) : Decidable (pointsAlong d n) := by
  unfold pointsAlong; infer_instance

/-- The point of the axis-aligned box from `lo` to `hi` with relative
coordinates `c` in `[-1, 1]` on each axis: the centre plus `c` times the half
width, so sign `-1` gives the low coordinate and sign `1` the high one. -/
def boxPoint (lo hi c : Vec3 ℚ) : Vec3 ℚ :=
  ⟨(lo.c0 + hi.c0) / 2 + (hi.c0 - lo.c0) / 2 * c.c0,
   (lo.c1 + hi.c1) / 2 + (hi.c1 - lo.c1) / 2 * c.c1,
   (lo.c2 + hi.c2) / 2 + (hi.c2 - lo.c2) / 2 * c.c2⟩

/-- The largest absolute value in a list of numbers (`0` for the empty list). -/
def maxAbs (l : List ℚ) : ℚ := l.foldl (fun m v => max m |v|) 0

/-- The difference `observationPosition - cameraPosition` of the values of a
camera state. -/
def offset (st : CameraState JSNum) : Vec3 ℚ :=
  ⟨st.observationPosition.c0.toRat - st.cameraPosition.c0.toRat,
   st.observationPosition.c1.toRat - st.cameraPosition.c1.toRat,
   st.observationPosition.c2.toRat - st.cameraPosition.c2.toRat⟩

/-- All six components of a camera state are finite. -/
def CameraState.finite (st : CameraState JSNum) : Prop :=
  st.cameraPosition.c0.isFinite ∧ st.cameraPosition.c1.isFinite ∧ st.cameraPosition.c2.isFinite ∧
  st.observationPosition.c0.isFinite ∧ st.observationPosition.c1.isFinite ∧
  st.observationPosition.c2.isFinite

/-- The rotation by `angle` about the line through the origin along `axis`, as
a column-major 4x4 matrix: with `u = axis / |axis|`, `c = cos angle` and
`s = sin angle`, the matrix `c I + s [u]ₓ + (1 - c) u uᵀ`. -/
def rotationAbout (ops : MathOps) (axis : Vec3 ℚ) (angle : ℚ) : Mat4 ℚ :=
  let n := ops.hypot axis.c0 axis.c1 axis.c2
  let ux := axis.c0 / n
  let uy := axis.c1 / n
  let uz := axis.c2 / n
  let c := ops.cos angle
  let s := ops.sin angle
  ⟨c + ux * ux * (1 - c), uy * ux * (1 - c) + uz * s, uz * ux * (1 - c) - uy * s, 0,
   ux * uy * (1 - c) - uz * s, c + uy * uy * (1 - c), uz * uy * (1 - c) + ux * s, 0,
   ux * uz * (1 - c) + uy * s, uy * uz * (1 - c) - ux * s, c + uz * uz * (1 - c), 0,
   0, 0, 0, 1⟩

/-- A rational instance of `MathOps`: the root is exact on squares of
rationals, sine and cosine are truncated power series. -/
def sampleOps : MathOps :=
  { hypot := fun a b c => Rat.sqrt (a * a + b * b + c * c)
    sin := fun x => x - x ^ 3 / 6
    cos := fun x => 1 - x ^ 2 / 2
    pi := 355 / 113 }

/-- The direction of the face of the canonical cube that the triangle
`(a, b, c)` lies on: a quarter of the normal of the triangle over the
canonical corners. -/
def faceDirection (t : ℕ × ℕ × ℕ) : Vec3 ℚ :=
  Vec3.smul (1 / 4)
    (((canonicalCorners.getD t.2.1 ⟨0, 0, 0⟩).sub (canonicalCorners.getD t.1 ⟨0, 0, 0⟩)).cross
      ((canonicalCorners.getD t.2.2 ⟨0, 0, 0⟩).sub (canonicalCorners.getD t.1 ⟨0, 0, 0⟩)))

/-! ## Facts about rounding -/

/-- The count of halvings brackets `n` between consecutive powers of two. -/
theorem log2Fuel_spec (fuel n : ℕ) (hn : n ≠ 0) (hf : n ≤ fuel) :
    2 ^ log2Fuel fuel n ≤ n ∧ n < 2 ^ (log2Fuel fuel n + 1) := by
  induction fuel generalizing n with
  | zero => omega
  | succ f ih =>
    unfold log2Fuel
    split
    · rename_i h
      have : n = 1 := by omega
      subst this; norm_num
    · rename_i h
      have h2 : n / 2 ≠ 0 := by omega
      have h3 : n / 2 ≤ f := by omega
      obtain ⟨l, u⟩ := ih (n / 2) h2 h3
      generalize log2Fuel f (n / 2) = k at l u
      simp only [pow_succ] at u ⊢
      generalize 2 ^ k = p at l u ⊢
      constructor <;> omega

/-- The binary logarithm brackets `n` between consecutive powers of two. -/
theorem natLog2_spec (n : ℕ) (hn : n ≠ 0) :
    2 ^ natLog2 n ≤ n ∧ n < 2 ^ (natLog2 n + 1) :=
  log2Fuel_spec n n hn (le_refl n)

theorem pow2_eq (k : ℤ) : pow2 k = (2 : ℚ) ^ k := by
  unfold pow2
  split
  · rename_i h
    conv_rhs => rw [← Int.toNat_of_nonneg h]
    rw [zpow_natCast]; push_cast; rfl
  · rename_i h
    have h' : 0 ≤ -k := by omega
    have : k = -((-k).toNat : ℤ) := by rw [Int.toNat_of_nonneg h']; ring
    conv_rhs => rw [this]
    rw [zpow_neg, zpow_natCast]; push_cast; simp

theorem pow2_pos (k : ℤ) : 0 < pow2 k := by
  rw [pow2_eq]; positivity

theorem ilog2_spec (a : ℚ) (ha : 0 < a) :
    (2 : ℚ) ^ ilog2 a ≤ a ∧ a < (2 : ℚ) ^ (ilog2 a + 1) := by
  have hnum : 0 < a.num := Rat.num_pos.mpr ha
  set n := a.num.natAbs with hn
  set d := a.den with hd
  have hn0 : n ≠ 0 := by
    rw [hn]; intro h; rw [Int.natAbs_eq_zero] at h; omega
  have hd0 : d ≠ 0 := a.den_nz
  have hnq : (a.num : ℚ) = (n : ℚ) := by
    have : (a.num : ℤ) = (n : ℤ) := by rw [hn, Int.natAbs_of_nonneg hnum.le]
    rw [this]; simp
  have ha' : a = (n : ℚ) / (d : ℚ) := by
    rw [← hnq, hd]; exact (Rat.num_div_den a).symm
  have hdpos : (0 : ℚ) < d := by exact_mod_cast Nat.pos_of_ne_zero hd0
  have h1 : ((2 : ℚ) ^ (natLog2 n : ℤ)) ≤ n := by
    rw [zpow_natCast]; exact_mod_cast (natLog2_spec n hn0).1
  have h2 : (n : ℚ) < (2 : ℚ) ^ ((natLog2 n : ℤ) + 1) := by
    have : n < 2 ^ (natLog2 n + 1) := (natLog2_spec n hn0).2
    have e : ((natLog2 n : ℤ) + 1) = ((natLog2 n + 1 : ℕ) : ℤ) := by push_cast; ring
    rw [e, zpow_natCast]; exact_mod_cast this
  have h3 : ((2 : ℚ) ^ (natLog2 d : ℤ)) ≤ d := by
    rw [zpow_natCast]; exact_mod_cast (natLog2_spec d hd0).1
  have h4 : (d : ℚ) < (2 : ℚ) ^ ((natLog2 d : ℤ) + 1) := by
    have : d < 2 ^ (natLog2 d + 1) := (natLog2_spec d hd0).2
    have e : ((natLog2 d : ℤ) + 1) = ((natLog2 d + 1 : ℕ) : ℤ) := by push_cast; ring
    rw [e, zpow_natCast]; exact_mod_cast this
  set ln : ℤ := (natLog2 n : ℤ)
  set ld : ℤ := (natLog2 d : ℤ)
  have two : (0 : ℚ) < 2 := by norm_num
  have hup : a < (2 : ℚ) ^ (ln - ld + 1) := by
    rw [ha', div_lt_iff₀ hdpos]
    have : (2 : ℚ) ^ (ln - ld + 1) * (2 : ℚ) ^ ld = (2 : ℚ) ^ (ln + 1) := by
      rw [← zpow_add₀ (by norm_num : (2 : ℚ) ≠ 0)]; congr 1; ring
    calc (n : ℚ) < (2 : ℚ) ^ (ln + 1) := h2
      _ = (2 : ℚ) ^ (ln - ld + 1) * (2 : ℚ) ^ ld := this.symm
      _ ≤ (2 : ℚ) ^ (ln - ld + 1) * d := by
        apply mul_le_mul_of_nonneg_left h3; positivity
  have hlo : (2 : ℚ) ^ (ln - ld - 1) < a := by
    rw [ha', lt_div_iff₀ hdpos]
    have : (2 : ℚ) ^ (ln - ld - 1) * (2 : ℚ) ^ (ld + 1) = (2 : ℚ) ^ ln := by
      rw [← zpow_add₀ (by norm_num : (2 : ℚ) ≠ 0)]; congr 1; ring
    calc (2 : ℚ) ^ (ln - ld - 1) * d < (2 : ℚ) ^ (ln - ld - 1) * (2 : ℚ) ^ (ld + 1) := by
          apply mul_lt_mul_of_pos_left h4; positivity
      _ = (2 : ℚ) ^ ln := this
      _ ≤ n := h1
  unfold ilog2
  simp only []
  split
  · rename_i h
    rw [pow2_eq] at h
    exact ⟨h, hup⟩
  · rename_i h
    rw [pow2_eq, not_le] at h
    refine ⟨hlo.le, ?_⟩
    have : ln - ld - 1 + 1 = ln - ld := by ring
    rw [this]; exact h


/-- The two naturals `roundMag` divides: their quotient is `a / 2 ^ k`. -/
theorem roundMag_frac (a : ℚ) (ha : 0 < a) (k : ℤ) :
    0 < a.den * 2 ^ k.toNat ∧
    ((a.num.natAbs * 2 ^ (-k).toNat : ℕ) : ℚ)
      = a * (2 : ℚ) ^ (-k) * ((a.den * 2 ^ k.toNat : ℕ) : ℚ) := by
  have hnum : 0 < a.num := Rat.num_pos.mpr ha
  have hnq : ((a.num.natAbs : ℕ) : ℚ) = a * (a.den : ℚ) := by
    have h1 : ((a.num.natAbs : ℕ) : ℤ) = a.num := Int.natAbs_of_nonneg hnum.le
    have h2 : ((a.num.natAbs : ℕ) : ℚ) = (a.num : ℚ) := by
      rw [Nat.cast_natAbs, abs_of_nonneg hnum.le]
    rw [h2]; exact (Rat.mul_den_eq_num a).symm
  refine ⟨Nat.mul_pos a.den_pos (by positivity), ?_⟩
  push_cast
  rw [hnq]
  have e : (-k : ℤ) + (k.toNat : ℤ) = ((-k).toNat : ℤ) := by
    have := Int.toNat_sub_toNat_neg k; omega
  have h2 : (2 : ℚ) ^ ((-k).toNat) = (2 : ℚ) ^ (-k) * (2 : ℚ) ^ (k.toNat) := by
    rw [← zpow_natCast, ← zpow_natCast, ← zpow_add₀ (by norm_num : (2 : ℚ) ≠ 0), e]
  rw [h2]; ring

/-- A positive number with at most `prec` significant bits and an exponent in
range is a fixed point of `roundMag`. -/
theorem roundMag_fixed (prec : ℕ) (emin : ℤ) (a : ℚ) (ha : 0 < a) (N : ℕ) (j : ℤ)
    (hN : N < 2 ^ prec) (hj : emin - ((prec : ℤ) - 1) ≤ j) (haN : a = (N : ℚ) * (2 : ℚ) ^ j) :
    roundMag prec emin a = a := by
  obtain ⟨hlo, -⟩ := ilog2_spec a ha
  have one2 : (1 : ℚ) < 2 := by norm_num
  have he0 : ilog2 a - ((prec : ℤ) - 1) ≤ j := by
    have h1 : (2 : ℚ) ^ ilog2 a < (2 : ℚ) ^ ((prec : ℤ) + j) := by
      calc (2 : ℚ) ^ ilog2 a ≤ a := hlo
        _ = (N : ℚ) * (2 : ℚ) ^ j := haN
        _ < (2 : ℚ) ^ (prec : ℤ) * (2 : ℚ) ^ j := by
          apply mul_lt_mul_of_pos_right _ (by positivity)
          rw [zpow_natCast]; exact_mod_cast hN
        _ = (2 : ℚ) ^ ((prec : ℤ) + j) := by rw [zpow_add₀ (by norm_num : (2 : ℚ) ≠ 0)]
    have := (zpow_lt_zpow_iff_right₀ one2).mp h1
    omega
  unfold roundMag
  simp only []
  set k : ℤ := max (ilog2 a) emin - ((prec : ℤ) - 1) with hk
  have hkj : k ≤ j := by
    rw [hk]; rcases max_cases (ilog2 a) emin with ⟨h, -⟩ | ⟨h, -⟩ <;> rw [h] <;> omega
  obtain ⟨hB, hAB⟩ := roundMag_frac a ha k
  set A := a.num.natAbs * 2 ^ (-k).toNat with hA
  set B := a.den * 2 ^ k.toNat with hBdef
  have hM : A = N * 2 ^ (j - k).toNat * B := by
    have : ((A : ℕ) : ℚ) = ((N * 2 ^ (j - k).toNat * B : ℕ) : ℚ) := by
      rw [hAB, haN]
      push_cast
      have e : (2 : ℚ) ^ ((j - k).toNat) = (2 : ℚ) ^ (j - k) := by
        rw [← zpow_natCast, Int.toNat_of_nonneg (by omega)]
      rw [e, zpow_sub₀ (by norm_num : (2 : ℚ) ≠ 0), zpow_neg]
      field_simp
    exact_mod_cast this
  have hdiv : A / B = N * 2 ^ (j - k).toNat := by
    rw [hM]; exact Nat.mul_div_cancel _ hB
  have hmod : A % B = 0 := by
    rw [hM]; exact Nat.mul_mod_left _ _
  rw [hmod, hdiv, if_pos (by omega), pow2_eq, haN]
  push_cast
  have e : (2 : ℚ) ^ ((j - k).toNat) = (2 : ℚ) ^ (j - k) := by
    rw [← zpow_natCast, Int.toNat_of_nonneg (by omega)]
  rw [e, mul_assoc, ← zpow_add₀ (by norm_num : (2 : ℚ) ≠ 0)]
  congr 2; ring

/-- The value `roundMag` returns has at most `prec` significant bits and an
exponent in range. -/
theorem roundMag_rep (prec : ℕ) (hp : 1 ≤ prec) (emin : ℤ) (a : ℚ) (ha : 0 < a) :
    ∃ (N : ℕ) (j : ℤ), roundMag prec emin a = (N : ℚ) * (2 : ℚ) ^ j ∧ N < 2 ^ prec ∧
      emin - ((prec : ℤ) - 1) ≤ j := by
  obtain ⟨-, hhi⟩ := ilog2_spec a ha
  have one2 : (1 : ℚ) ≤ 2 := by norm_num
  unfold roundMag
  simp only []
  set k : ℤ := max (ilog2 a) emin - ((prec : ℤ) - 1) with hk
  have hk1 : ilog2 a + 1 ≤ k + prec := by
    rw [hk]; have := le_max_left (ilog2 a) emin; omega
  have hk2 : emin - ((prec : ℤ) - 1) ≤ k := by
    rw [hk]; have := le_max_right (ilog2 a) emin; omega
  obtain ⟨hB, hAB⟩ := roundMag_frac a ha k
  set A := a.num.natAbs * 2 ^ (-k).toNat with hA
  set B := a.den * 2 ^ k.toNat with hBdef
  have hf : A / B < 2 ^ prec := by
    rw [Nat.div_lt_iff_lt_mul hB]
    have : ((A : ℕ) : ℚ) < (2 : ℚ) ^ prec * ((B : ℕ) : ℚ) := by
      rw [hAB]
      have hBq : (0 : ℚ) < ((B : ℕ) : ℚ) := by exact_mod_cast hB
      apply mul_lt_mul_of_pos_right _ hBq
      have h1 : a < (2 : ℚ) ^ (k + prec) :=
        lt_of_lt_of_le hhi (zpow_le_zpow_right₀ one2 hk1)
      rw [zpow_add₀ (by norm_num : (2 : ℚ) ≠ 0), zpow_natCast] at h1
      rw [zpow_neg]
      have h2pos : (0 : ℚ) < (2 : ℚ) ^ k := by positivity
      calc a * ((2 : ℚ) ^ k)⁻¹ < ((2 : ℚ) ^ k * 2 ^ prec) * ((2 : ℚ) ^ k)⁻¹ := by
            apply mul_lt_mul_of_pos_right h1; positivity
        _ = 2 ^ prec := by field_simp
    exact_mod_cast this
  set n := (if 2 * (A % B) < B then A / B else if B < 2 * (A % B) then A / B + 1
    else A / B + A / B % 2) with hn
  have hnle : n ≤ 2 ^ prec := by
    rw [hn]; split
    · omega
    · split <;> omega
  rcases Nat.lt_or_ge n (2 ^ prec) with h | h
  · exact ⟨n, k, by rw [pow2_eq], h, hk2⟩
  · have hn2 : n = 2 ^ prec := le_antisymm hnle h
    refine ⟨2 ^ (prec - 1), k + 1, ?_, ?_, by omega⟩
    · rw [pow2_eq, hn2]
      push_cast
      rw [zpow_add₀ (by norm_num : (2 : ℚ) ≠ 0)]
      have : (2 : ℚ) ^ prec = 2 ^ (prec - 1) * 2 := by
        rw [← pow_succ]; congr 1; omega
      rw [this]; ring
    · exact Nat.pow_lt_pow_right (by norm_num) (by omega)

/-- Rounding to nearest: the rounded magnitude is within half a spacing. -/
theorem roundMag_err (prec : ℕ) (emin : ℤ) (a : ℚ) (ha : 0 < a) :
    |roundMag prec emin a - a|
      ≤ (2 : ℚ) ^ (-(prec : ℤ)) * a + (2 : ℚ) ^ (emin - (prec : ℤ)) := by
  obtain ⟨hlo, -⟩ := ilog2_spec a ha
  have two0 : (2 : ℚ) ≠ 0 := by norm_num
  unfold roundMag
  simp only []
  set k : ℤ := max (ilog2 a) emin - ((prec : ℤ) - 1) with hk
  obtain ⟨hB, hAB⟩ := roundMag_frac a ha k
  set A := a.num.natAbs * 2 ^ (-k).toNat with hA
  set B := a.den * 2 ^ k.toNat with hBdef
  have hBq : (0 : ℚ) < (B : ℚ) := by exact_mod_cast hB
  have h2k : (0 : ℚ) < (2 : ℚ) ^ k := by positivity
  -- the quotient `t = a / 2 ^ k` and its integer neighbours
  have hdm : (A : ℚ) = (B : ℚ) * ((A / B : ℕ) : ℚ) + ((A % B : ℕ) : ℚ) := by
    exact_mod_cast (Nat.div_add_mod A B).symm
  have hmodlt : ((A % B : ℕ) : ℚ) < (B : ℚ) := by exact_mod_cast Nat.mod_lt A hB
  have ha_eq : a = ((A : ℚ) / (B : ℚ)) * (2 : ℚ) ^ k := by
    rw [hAB, zpow_neg]; field_simp; ring
  set n := (if 2 * (A % B) < B then A / B else if B < 2 * (A % B) then A / B + 1
    else A / B + A / B % 2) with hn
  have hnear : |(n : ℚ) - (A : ℚ) / (B : ℚ)| ≤ 1 / 2 := by
    have hdiv : (A : ℚ) / (B : ℚ) = ((A / B : ℕ) : ℚ) + ((A % B : ℕ) : ℚ) / (B : ℚ) := by
      rw [hdm]; field_simp; ring
    rw [hdiv, abs_le]
    have hm0 : (0 : ℚ) ≤ ((A % B : ℕ) : ℚ) := by positivity
    rw [hn]
    split
    · rename_i h
      have h' : (2 : ℚ) * ((A % B : ℕ) : ℚ) < (B : ℚ) := by exact_mod_cast h
      have : ((A % B : ℕ) : ℚ) / (B : ℚ) < 1 / 2 := by
        rw [div_lt_iff₀ hBq]; linarith
      have : (0 : ℚ) ≤ ((A % B : ℕ) : ℚ) / (B : ℚ) := by positivity
      constructor <;> linarith
    · rename_i h
      have h' : (B : ℚ) ≤ (2 : ℚ) * ((A % B : ℕ) : ℚ) := by exact_mod_cast not_lt.mp h
      have hge : (1 : ℚ) / 2 ≤ ((A % B : ℕ) : ℚ) / (B : ℚ) := by
        rw [le_div_iff₀ hBq]; linarith
      have hlt : ((A % B : ℕ) : ℚ) / (B : ℚ) < 1 := by
        rw [div_lt_iff₀ hBq]; linarith
      split
      · push_cast; constructor <;> linarith
      · rename_i h2
        have h2' : (2 : ℚ) * ((A % B : ℕ) : ℚ) ≤ (B : ℚ) := by exact_mod_cast not_lt.mp h2
        have heq : ((A % B : ℕ) : ℚ) / (B : ℚ) = 1 / 2 := by
          rw [div_eq_iff (ne_of_gt hBq)]; linarith
        rw [heq]
        rcases Nat.mod_two_eq_zero_or_one (A / B) with h0 | h1
        · rw [h0]; push_cast; constructor <;> linarith
        · rw [h1]; push_cast; constructor <;> linarith
  have herr : |(n : ℚ) * pow2 k - a| ≤ (2 : ℚ) ^ (k - 1) := by
    rw [pow2_eq]
    have : (n : ℚ) * (2 : ℚ) ^ k - a = ((n : ℚ) - (A : ℚ) / (B : ℚ)) * (2 : ℚ) ^ k := by
      conv_lhs => rw [ha_eq]
      ring
    have e2 : ∀ m : ℤ, (2 : ℚ) ^ (m - 1) = (2 : ℚ) ^ m / 2 := fun m => by
      rw [zpow_sub₀ two0, zpow_one]
    rw [this, abs_mul, abs_of_pos h2k, e2 k]
    calc |(n : ℚ) - (A : ℚ) / (B : ℚ)| * (2 : ℚ) ^ k ≤ (1 / 2) * (2 : ℚ) ^ k :=
          mul_le_mul_of_nonneg_right hnear h2k.le
      _ = (2 : ℚ) ^ k / 2 := by ring
  refine le_trans herr ?_
  have hpa : (0 : ℚ) ≤ (2 : ℚ) ^ (-(prec : ℤ)) * a := by positivity
  have hpe : (0 : ℚ) ≤ (2 : ℚ) ^ (emin - (prec : ℤ)) := by positivity
  rcases max_cases (ilog2 a) emin with ⟨h, -⟩ | ⟨h, -⟩
  · have e : k - 1 = -(prec : ℤ) + ilog2 a := by rw [hk, h]; ring
    rw [e, zpow_add₀ two0]
    have : (2 : ℚ) ^ (-(prec : ℤ)) * (2 : ℚ) ^ ilog2 a ≤ (2 : ℚ) ^ (-(prec : ℤ)) * a :=
      mul_le_mul_of_nonneg_left hlo (by positivity)
    linarith
  · have e : k - 1 = emin - (prec : ℤ) := by rw [hk, h]; ring
    rw [e]; linarith

/-- The rounded magnitude is not negative. -/
theorem roundMag_nonneg (prec : ℕ) (emin : ℤ) (a : ℚ) : 0 ≤ roundMag prec emin a := by
  unfold roundMag
  simp only []
  have := pow2_pos (max (ilog2 a) emin - ((prec : ℤ) - 1))
  positivity

/-- A representable number rounds to itself. -/
theorem roundBin_fixed (prec : ℕ) (emin emax : ℤ) (q : ℚ) (h : Rep prec emin emax q) :
    roundBin prec emin emax q = .fin q := by
  obtain ⟨N, j, hq, hN, hj, hlt⟩ := h
  unfold roundBin
  by_cases h0 : q = 0
  · simp [h0]
  · have hpos : 0 < |q| := abs_pos.mpr h0
    have hfix := roundMag_fixed prec emin |q| hpos N j hN hj hq
    rw [if_neg h0, hfix, pow2_eq, if_neg (not_le.mpr hlt)]
    congr 1
    split
    · rename_i hneg; rw [abs_of_neg hneg]; ring
    · rename_i hneg; exact abs_of_nonneg (not_lt.mp hneg)

/-- A finite result of rounding is representable. -/
theorem roundBin_rep (prec : ℕ) (hp : 1 ≤ prec) (emin emax : ℤ) (q r : ℚ)
    (h : roundBin prec emin emax q = .fin r) : Rep prec emin emax r := by
  unfold roundBin at h
  by_cases h0 : q = 0
  · rw [if_pos h0] at h
    have hr : r = 0 := by injection h with h; exact h.symm
    subst hr
    exact ⟨0, emin - ((prec : ℤ) - 1), by simp, by positivity, le_refl _, by positivity⟩
  · rw [if_neg h0] at h
    have hpos : 0 < |q| := abs_pos.mpr h0
    by_cases hov : pow2 (emax + 1) ≤ roundMag prec emin |q|
    · rw [if_pos hov] at h
      split at h <;> cases h
    · rw [if_neg hov] at h
      obtain ⟨N, j, hm, hN, hj⟩ := roundMag_rep prec hp emin |q| hpos
      have hnn := roundMag_nonneg prec emin |q|
      have habs : |r| = roundMag prec emin |q| := by
        injection h with h
        rw [← h]
        split
        · rw [abs_neg, abs_of_nonneg hnn]
        · exact abs_of_nonneg hnn
      rw [pow2_eq, not_le] at hov
      exact ⟨N, j, by rw [habs, hm], hN, hj, by rw [habs]; exact hov⟩

/-- Rounding commutes with negation. -/
theorem roundBin_neg (prec : ℕ) (emin emax : ℤ) (q : ℚ) :
    roundBin prec emin emax (-q) = (roundBin prec emin emax q).neg := by
  unfold roundBin
  by_cases h0 : q = 0
  · simp [h0, JSNum.neg]
  · have h0' : ¬ (-q = 0) := by simpa using h0
    rw [if_neg h0, if_neg h0', abs_neg]
    rcases lt_or_gt_of_ne h0 with hlt | hgt
    · have h1 : ¬ (-q < 0) := by linarith
      split <;> simp [hlt, h1, JSNum.neg]
    · have h1 : (-q < 0) := by linarith
      have h2 : ¬ (q < 0) := by linarith
      split <;> simp [h1, h2, JSNum.neg]

/-- The error of a finite rounding is at most the relative half-spacing plus
the absolute half-spacing of the subnormal range. -/
theorem roundBin_err (prec : ℕ) (emin emax : ℤ) (q r : ℚ)
    (h : roundBin prec emin emax q = .fin r) :
    |r - q| ≤ (2 : ℚ) ^ (-(prec : ℤ)) * |q| + (2 : ℚ) ^ (emin - (prec : ℤ)) := by
  unfold roundBin at h
  by_cases h0 : q = 0
  · rw [if_pos h0] at h
    have hr : r = 0 := by injection h with h; exact h.symm
    subst hr; subst h0
    simp; positivity
  · rw [if_neg h0] at h
    have hpos : 0 < |q| := abs_pos.mpr h0
    by_cases hov : pow2 (emax + 1) ≤ roundMag prec emin |q|
    · rw [if_pos hov] at h
      split at h <;> cases h
    · rw [if_neg hov] at h
      have herr := roundMag_err prec emin |q| hpos
      injection h with h
      rw [← h]
      split
      · rename_i hneg
        have : -roundMag prec emin |q| - q = -(roundMag prec emin |q| - |q|) := by
          rw [abs_of_neg hneg]; ring
        rw [this, abs_neg]; exact herr
      · rename_i hneg
        have : roundMag prec emin |q| - q = roundMag prec emin |q| - |q| := by
          rw [abs_of_nonneg (not_lt.mp hneg)]
        rw [this]; exact herr

/-- A binary32 number is a binary64 number. -/
theorem Rep.single_double (q : ℚ) (h : Rep 24 (-126) 127 q) : Rep 53 (-1022) 1023 q := by
  obtain ⟨N, j, hq, hN, hj, hlt⟩ := h
  refine ⟨N, j, hq, lt_trans hN (by norm_num), by norm_num at hj ⊢; omega, lt_trans hlt ?_⟩
  exact zpow_lt_zpow_right₀ (by norm_num) (by norm_num)

/-- Representability does not depend on the sign. -/
theorem Rep.neg (prec : ℕ) (emin emax : ℤ) (q : ℚ) (h : Rep prec emin emax q) :
    Rep prec emin emax (-q) := by
  obtain ⟨N, j, hq, hN, hj, hlt⟩ := h
  exact ⟨N, j, by rw [abs_neg]; exact hq, hN, hj, by rw [abs_neg]; exact hlt⟩

/-! ## Facts about the arithmetic of numbers -/

theorem round64_of_round32 (q r : ℚ) (h : round32 q = .fin r) : round64 r = .fin r :=
  roundBin_fixed _ _ _ _ (Rep.single_double r (roundBin_rep 24 (by norm_num) _ _ q r h))

theorem round32_idem (q r : ℚ) (h : round32 q = .fin r) : round32 r = .fin r :=
  roundBin_fixed _ _ _ _ (roundBin_rep 24 (by norm_num) _ _ q r h)

theorem round64_idem (q r : ℚ) (h : round64 q = .fin r) : round64 r = .fin r :=
  roundBin_fixed _ _ _ _ (roundBin_rep 53 (by norm_num) _ _ q r h)

theorem round64_neg_fixed (r : ℚ) (h : round64 r = .fin r) : round64 (-r) = .fin (-r) := by
  unfold round64 at h ⊢
  rw [roundBin_neg, h]; rfl

theorem round32_neg_fixed (r : ℚ) (h : round32 r = .fin r) : round32 (-r) = .fin (-r) := by
  unfold round32 at h ⊢
  rw [roundBin_neg, h]; rfl

theorem round64_zero : round64 0 = .fin 0 := by decide!
theorem round64_one : round64 1 = .fin 1 := by decide!
theorem round32_zero : round32 0 = .fin 0 := by decide!
theorem round32_one : round32 1 = .fin 1 := by decide!
theorem round32_neg_one : round32 (-1) = .fin (-1) := by decide!

theorem lit_zero : (lit 0 : JSNum) = .fin 0 := by decide!
theorem lit_one : (lit 1 : JSNum) = .fin 1 := by decide!
theorem lit_one_dec : (lit 1.0 : JSNum) = .fin 1 := by decide!
theorem lit_neg_one_dec : (lit (-1.0) : JSNum) = .fin (-1) := by decide!

theorem add_JSNum (a b : JSNum) : JSArith.add a b = JSNum.add a b := rfl
theorem sub_JSNum (a b : JSNum) : JSArith.sub a b = JSNum.sub a b := rfl
theorem mul_JSNum (a b : JSNum) : JSArith.mul a b = JSNum.mul a b := rfl
theorem div_JSNum (a b : JSNum) : JSArith.div a b = JSNum.div a b := rfl
theorem fround_JSNum (a : JSNum) : JSArith.fround a = JSNum.fround a := rfl
theorem falsy_JSNum (a : JSNum) : JSArith.falsy a = JSNum.falsy a := rfl
theorem lit_JSNum (q : ℚ) : (JSArith.lit q : JSNum) = round64 q := rfl

/-- Multiplying a number by `1` gives the number back. -/
theorem JSNum.one_mul_fin (v : ℚ) (h : round64 v = .fin v) :
    JSNum.mul (.fin 1) (.fin v) = .fin v := by
  simp [JSNum.mul, h]

/-- Multiplying a finite number by `0` gives `0`. -/
theorem JSNum.zero_mul_fin (v : ℚ) : JSNum.mul (.fin 0) (.fin v) = .fin 0 := by
  simp [JSNum.mul, round64_zero]

/-- Adding `0` on the right gives the number back. -/
theorem JSNum.fin_add_zero (v : ℚ) (h : round64 v = .fin v) :
    JSNum.add (.fin v) (.fin 0) = .fin v := by
  simp [JSNum.add, h]

/-- Adding `0` on the left gives the number back. -/
theorem JSNum.zero_add_fin (v : ℚ) (h : round64 v = .fin v) :
    JSNum.add (.fin 0) (.fin v) = .fin v := by
  simp [JSNum.add, h]

/-- A sum of a finite number and a rounded number is unchanged by a division
by `1`. -/
theorem JSNum.add_div_one (v p : ℚ) :
    JSNum.div (JSNum.add (.fin v) (round32 p)) (.fin 1) = JSNum.add (.fin v) (round32 p) := by
  cases hT : round32 p with
  | fin t =>
    simp only [JSNum.add]
    cases hR : round64 (v + t) with
    | fin u => simp [JSNum.div, round64_idem _ _ hR]
    | posInf => simp [JSNum.div]
    | negInf => simp [JSNum.div]
    | nan => simp [JSNum.div]
  | posInf => simp [JSNum.add, JSNum.div]
  | negInf => simp [JSNum.add, JSNum.div]
  | nan => simp [JSNum.add, JSNum.div]

/-- Dividing a number by `1` gives the number back. -/
theorem JSNum.fin_div_one (v : ℚ) (h : round64 v = .fin v) :
    JSNum.div (.fin v) (.fin 1) = .fin v := by
  simp [JSNum.div, h]

/-! ## The mesh generator on the program's numbers -/

/-- The scale matrix `generateCubeVerts` builds: the scale, stored in single
precision, on the diagonal. -/
theorem scaleMatrix_JSNum (s sf : ℚ) (hs : round64 s = .fin s) (hsf : round32 s = .fin sf) :
    Mat4.scale (Mat4.create : Mat4 JSNum) ⟨.fin s, .fin s, .fin s⟩
      = ⟨.fin sf, .fin 0, .fin 0, .fin 0,
         .fin 0, .fin sf, .fin 0, .fin 0,
         .fin 0, .fin 0, .fin sf, .fin 0,
         .fin 0, .fin 0, .fin 0, .fin 1⟩ := by
  simp only [Mat4.scale, Mat4.create, fround_JSNum, mul_JSNum, lit_one, lit_zero, JSNum.fround,
    round32_one, round32_zero, JSNum.one_mul_fin s hs, JSNum.zero_mul_fin, hsf]

/-- The translation matrix `generateCubeVerts` builds: the position, stored in
single precision, in the last column. -/
theorem translationMatrix_JSNum (x y z : ℚ) (hx : round64 x = .fin x)
    (hy : round64 y = .fin y) (hz : round64 z = .fin z) :
    Mat4.translate (Mat4.create : Mat4 JSNum) ⟨.fin x, .fin y, .fin z⟩
      = ⟨.fin 1, .fin 0, .fin 0, .fin 0,
         .fin 0, .fin 1, .fin 0, .fin 0,
         .fin 0, .fin 0, .fin 1, .fin 0,
         round32 x, round32 y, round32 z, .fin 1⟩ := by
  simp only [Mat4.translate, Mat4.create, fround_JSNum, mul_JSNum, add_JSNum, lit_one, lit_zero,
    JSNum.fround, round32_one, round32_zero, JSNum.one_mul_fin x hx, JSNum.one_mul_fin y hy,
    JSNum.one_mul_fin z hz, JSNum.zero_mul_fin, JSNum.fin_add_zero x hx,
    JSNum.fin_add_zero y hy, JSNum.fin_add_zero z hz, JSNum.zero_add_fin y hy,
    JSNum.zero_add_fin z hz, JSNum.fin_add_zero 0 round64_zero,
    JSNum.zero_add_fin 1 round64_one]

/-- One corner of the canonical cube through both transforms. -/
theorem corner_JSNum (x y z sf : ℚ) (hD : round64 sf = .fin sf) (hS : round32 sf = .fin sf)
    (c0 c1 c2 : ℚ) (h0 : c0 = 1 ∨ c0 = -1) (h1 : c1 = 1 ∨ c1 = -1) (h2 : c2 = 1 ∨ c2 = -1) :
    Vec3.transformMat4
      (Vec3.transformMat4 (⟨.fin c0, .fin c1, .fin c2⟩ : Vec3 JSNum)
        ⟨.fin sf, .fin 0, .fin 0, .fin 0,
         .fin 0, .fin sf, .fin 0, .fin 0,
         .fin 0, .fin 0, .fin sf, .fin 0,
         .fin 0, .fin 0, .fin 0, .fin 1⟩)
      ⟨.fin 1, .fin 0, .fin 0, .fin 0,
       .fin 0, .fin 1, .fin 0, .fin 0,
       .fin 0, .fin 0, .fin 1, .fin 0,
       round32 x, round32 y, round32 z, .fin 1⟩
      = ⟨roundedCoord sf x c0, roundedCoord sf y c1, roundedCoord sf z c2⟩ := by
  have hDn := round64_neg_fixed sf hD
  have hSn := round32_neg_fixed sf hS
  have m1 : JSNum.mul (.fin sf) (.fin 1) = .fin sf := by simp [JSNum.mul, hD]
  have m2 : JSNum.mul (.fin sf) (.fin (-1)) = .fin (-sf) := by simp [JSNum.mul, hDn]
  have w1 : JSNum.falsy (.fin 1) = false := by simp [JSNum.falsy]
  rcases h0 with rfl | rfl <;> rcases h1 with rfl | rfl <;> rcases h2 with rfl | rfl <;>
    simp only [Vec3.transformMat4, roundedCoord, fround_JSNum, mul_JSNum, add_JSNum, div_JSNum,
      falsy_JSNum, lit_one_dec, JSNum.fround, JSNum.zero_mul_fin, m1, m2,
      JSNum.fin_add_zero sf hD, JSNum.fin_add_zero (-sf) hDn, JSNum.zero_add_fin sf hD,
      JSNum.zero_add_fin (-sf) hDn, JSNum.fin_add_zero 0 round64_zero,
      JSNum.zero_add_fin 1 round64_one, w1, Bool.false_eq_true, if_false,
      JSNum.fin_div_one sf hD, JSNum.fin_div_one (-sf) hDn, hS, hSn,
      JSNum.one_mul_fin sf hD, JSNum.one_mul_fin (-sf) hDn, JSNum.add_div_one,
      one_mul, neg_one_mul, neg_mul]

/-- The vertex list `generateCubeVerts` returns on the program's numbers, for
finite arguments whose scale stays finite in single precision: on every axis
the coordinate of corner `c` is `roundedCoord sf p c`. -/
theorem generateCubeVerts_JSNum (x y z s sf : ℚ) (hx : round64 x = .fin x)
    (hy : round64 y = .fin y) (hz : round64 z = .fin z) (hs : round64 s = .fin s)
    (hsf : round32 s = .fin sf) :
    (generateCubeVerts (JSNum.fin x) (.fin y) (.fin z) (.fin s)).vertices =
      (canonicalCorners.map fun c =>
        [roundedCoord sf x c.c0, roundedCoord sf y c.c1, roundedCoord sf z c.c2]).flatten := by
  have hD := round64_of_round32 s sf hsf
  have hS := round32_idem s sf hsf
  have k := corner_JSNum x y z sf hD hS
  have k0 := k (-1) 1 1 (Or.inr rfl) (Or.inl rfl) (Or.inl rfl)
  have k1 := k 1 1 1 (Or.inl rfl) (Or.inl rfl) (Or.inl rfl)
  have k2 := k 1 (-1) 1 (Or.inl rfl) (Or.inr rfl) (Or.inl rfl)
  have k3 := k (-1) (-1) 1 (Or.inr rfl) (Or.inr rfl) (Or.inl rfl)
  have k4 := k (-1) 1 (-1) (Or.inr rfl) (Or.inl rfl) (Or.inr rfl)
  have k5 := k 1 1 (-1) (Or.inl rfl) (Or.inl rfl) (Or.inr rfl)
  have k6 := k 1 (-1) (-1) (Or.inl rfl) (Or.inr rfl) (Or.inr rfl)
  have k7 := k (-1) (-1) (-1) (Or.inr rfl) (Or.inr rfl) (Or.inr rfl)
  simp only [generateCubeVerts, scaleMatrix_JSNum s sf hs hsf,
    translationMatrix_JSNum x y z hx hy hz]
  simp [cubeLoop, startCubeVerts, Vec3.fromValues, fround_JSNum, lit_one_dec, lit_neg_one_dec,
    JSNum.fround, round32_one, round32_neg_one, k0, k1, k2, k3, k4, k5, k6, k7,
    canonicalCorners]

/-! ## Exact arithmetic -/

theorem lit_rat (q : ℚ) : (lit q : ℚ) = q := rfl
theorem fround_rat (q : ℚ) : (fround q : ℚ) = q := rfl
theorem add_rat (a b : ℚ) : JSArith.add a b = a + b := rfl
theorem sub_rat (a b : ℚ) : JSArith.sub a b = a - b := rfl
theorem mul_rat (a b : ℚ) : JSArith.mul a b = a * b := rfl
theorem div_rat (a b : ℚ) : JSArith.div a b = a / b := rfl
theorem falsy_rat (a : ℚ) : JSArith.falsy a = decide (a = 0) := rfl

/-- The identity matrix in exact arithmetic. -/
theorem create_rat :
    (Mat4.create : Mat4 ℚ) = ⟨1, 0, 0, 0,  0, 1, 0, 0,  0, 0, 1, 0,  0, 0, 0, 1⟩ := rfl

/-- The initial camera in exact arithmetic. -/
theorem initialCamera_rat :
    (initialCamera : CameraState ℚ) = ⟨⟨0, 0, -4⟩, ⟨0, 0, 0⟩⟩ := rfl

/-- In exact arithmetic the vertex list of `generateCubeVerts` is `p + s * c_i`
for the canonical corners `c_i` in their order. -/
theorem generateCubeVerts_exact (x y z s : ℚ) :
    (generateCubeVerts x y z s).vertices =
      (canonicalCorners.map fun c => [x + s * c.c0, y + s * c.c1, z + s * c.c2]).flatten := by
  simp [generateCubeVerts, cubeLoop, startCubeVerts, Vec3.transformMat4, Mat4.scale,
    Mat4.translate, Mat4.create, Vec3.fromValues, canonicalCorners, lit_rat, fround_rat,
    add_rat, mul_rat, div_rat, falsy_rat]
  norm_num
  refine ⟨?_, ?_, ?_, ?_, ?_, ?_, ?_, ?_, ?_, ?_, ?_, ?_, ?_, ?_, ?_, ?_, ?_, ?_, ?_, ?_,
    ?_, ?_, ?_, ?_⟩ <;> ring

/-! ## Mesh generator -/

/-- The loop over `startCubeVerts` ends by its own test `i < length` after 8
rounds: fuel beyond 8 is never used, so the fuel `startCubeVerts.length` that
`generateCubeVerts` passes does not cut the loop short. -/
theorem cubeLoop_fuel {α : Type} [JSArith α] (scaleMatrix translationMatrix : Mat4 α) (n : ℕ) :
    cubeLoop startCubeVerts scaleMatrix translationMatrix (n + 8) 0 []
      = cubeLoop startCubeVerts scaleMatrix translationMatrix 8 0 [] := by
  cases n <;> simp [cubeLoop, startCubeVerts]

/-- The vertex list has 24 entries, whatever the numbers. -/
theorem generateCubeVerts_length {α : Type} [JSArith α] (x y z s : α) :
    (generateCubeVerts x y z s).vertices.length = 24 := by
  simp [generateCubeVerts, cubeLoop, startCubeVerts]

/-- C2: for every input and every arithmetic the index list of
`generateCubeVerts` has exactly 36 entries (12 triangles), every entry is at
most 7 (a valid index into the 24 returned coordinates) and each of `0 .. 7`
occurs in it. -/
theorem generateCubeVerts_indices {α : Type} [JSArith α] (x y z s : α) :
    (generateCubeVerts x y z s).indices.length = 36 ∧
    (triangles (generateCubeVerts x y z s).indices).length = 12 ∧
    (∀ k ∈ (generateCubeVerts x y z s).indices,
      k ≤ 7 ∧ 3 * k + 2 < (generateCubeVerts x y z s).vertices.length) ∧
    (∀ k, k ≤ 7 → k ∈ (generateCubeVerts x y z s).indices) := by
  rw [generateCubeVerts_length]
  simp only [generateCubeVerts]
  decide

/-! ## Camera keys -/

/-- C7: each arrow key moves both vectors by `movementSpeed = 0.1` along one
axis (`ArrowUp` `+0.1` and `ArrowDown` `-0.1` on component 2, `ArrowLeft`
`+0.1` and `ArrowRight` `-0.1` on component 0, with the operators `+` and `-`
of the number type) and leaves their other two components unchanged; no key
changes component 1; any other key leaves the whole camera state unchanged.
This holds in every arithmetic, and is written out for exact arithmetic. -/
theorem keydown_effect {α : Type} [JSArith α] (st : CameraState α) (sq : CameraState ℚ)
    (key : String) :
    (movementSpeed : α) = lit 0.1 ∧
    keydown st "ArrowUp" =
      ⟨⟨st.cameraPosition.c0, st.cameraPosition.c1, add st.cameraPosition.c2 (lit 0.1)⟩,
       ⟨st.observationPosition.c0, st.observationPosition.c1,
        add st.observationPosition.c2 (lit 0.1)⟩⟩ ∧
    keydown st "ArrowDown" =
      ⟨⟨st.cameraPosition.c0, st.cameraPosition.c1, sub st.cameraPosition.c2 (lit 0.1)⟩,
       ⟨st.observationPosition.c0, st.observationPosition.c1,
        sub st.observationPosition.c2 (lit 0.1)⟩⟩ ∧
    keydown st "ArrowLeft" =
      ⟨⟨add st.cameraPosition.c0 (lit 0.1), st.cameraPosition.c1, st.cameraPosition.c2⟩,
       ⟨add st.observationPosition.c0 (lit 0.1), st.observationPosition.c1,
        st.observationPosition.c2⟩⟩ ∧
    keydown st "ArrowRight" =
      ⟨⟨sub st.cameraPosition.c0 (lit 0.1), st.cameraPosition.c1, st.cameraPosition.c2⟩,
       ⟨sub st.observationPosition.c0 (lit 0.1), st.observationPosition.c1,
        st.observationPosition.c2⟩⟩ ∧
    (keydown st key).cameraPosition.c1 = st.cameraPosition.c1 ∧
    (keydown st key).observationPosition.c1 = st.observationPosition.c1 ∧
    (key ≠ "ArrowUp" → key ≠ "ArrowDown" → key ≠ "ArrowLeft" → key ≠ "ArrowRight" →
      keydown st key = st) ∧
    ((movementSpeed : ℚ) = 0.1 ∧
     keydown sq "ArrowUp" =
      ⟨⟨sq.cameraPosition.c0, sq.cameraPosition.c1, sq.cameraPosition.c2 + 0.1⟩,
       ⟨sq.observationPosition.c0, sq.observationPosition.c1,
        sq.observationPosition.c2 + 0.1⟩⟩ ∧
     keydown sq "ArrowDown" =
      ⟨⟨sq.cameraPosition.c0, sq.cameraPosition.c1, sq.cameraPosition.c2 - 0.1⟩,
       ⟨sq.observationPosition.c0, sq.observationPosition.c1,
        sq.observationPosition.c2 - 0.1⟩⟩ ∧
     keydown sq "ArrowLeft" =
      ⟨⟨sq.cameraPosition.c0 + 0.1, sq.cameraPosition.c1, sq.cameraPosition.c2⟩,
       ⟨sq.observationPosition.c0 + 0.1, sq.observationPosition.c1,
        sq.observationPosition.c2⟩⟩ ∧
     keydown sq "ArrowRight" =
      ⟨⟨sq.cameraPosition.c0 - 0.1, sq.cameraPosition.c1, sq.cameraPosition.c2⟩,
       ⟨sq.observationPosition.c0 - 0.1, sq.observationPosition.c1,
        sq.observationPosition.c2⟩⟩) := by
  refine ⟨rfl, rfl, rfl, rfl, rfl, ?_, ?_, ?_, rfl, rfl, rfl, rfl, rfl⟩
  · unfold keydown; split <;> rfl
  · unfold keydown; split <;> rfl
  · intro h1 h2 h3 h4
    unfold keydown
    split <;> simp_all

/-- Instance of C7 at the initial camera of the program and the key `"a"`. -/
theorem keydown_effect_witness :
    keydown (initialCamera : CameraState JSNum) "a" = initialCamera :=
  (keydown_effect initialCamera (initialCamera : CameraState ℚ) "a").2.2.2.2.2.2.2.1
    (by decide) (by decide) (by decide) (by decide)

/-! ## Frame loop -/

/-- C9: when `Math.hypot` is the Euclidean length on the three vectors the
computation meets (`(0,0,-4)`, `(-1,0,0)`, `(0,1,0)`), the look-at matrix for
eye `(0,0,-4)`, target `(0,0,0)`, up `(0,1,0)` is, in column-major order,
`(-1,0,0,0, 0,1,0,0, 0,0,-1,0, 0,0,-4,1)`, and this is the view matrix one tick
of the frame loop computes in the initial camera state. -/
theorem lookAt_initialCamera (ops : MathOps) (st : FrameState) (now : ℚ)
    (hz : ops.hypot 0 0 (-4) = 4) (hx : ops.hypot (-1) 0 0 = 1) (hy : ops.hypot 0 1 0 = 1)
    (hcam : st.camera = initialCamera) :
    Mat4.lookAt ops ⟨0, 0, -4⟩ ⟨0, 0, 0⟩ ⟨0, 1, 0⟩
      = ⟨-1, 0, 0, 0,  0, 1, 0, 0,  0, 0, -1, 0,  0, 0, -4, 1⟩ ∧
    (loop ops st now).viewMatrix
      = ⟨-1, 0, 0, 0,  0, 1, 0, 0,  0, 0, -1, 0,  0, 0, -4, 1⟩ := by
  have h : Mat4.lookAt ops ⟨0, 0, -4⟩ ⟨0, 0, 0⟩ ⟨0, 1, 0⟩
      = ⟨-1, 0, 0, 0,  0, 1, 0, 0,  0, 0, -1, 0,  0, 0, -4, 1⟩ := by
    have hne : ¬ (|(0 : ℚ) - 0| < EPSILON ∧ |(0 : ℚ) - 0| < EPSILON
        ∧ |(-4 : ℚ) - 0| < EPSILON) := by
      norm_num [EPSILON, abs_of_neg]
    unfold Mat4.lookAt
    rw [if_neg hne]
    norm_num [hz, hx, hy, Vec3.normalizeBy]
  refine ⟨h, ?_⟩
  simp only [loop, hcam, initialCamera_rat]
  exact h

/-- Instance of C9: the first tick, at time `0`, with the rational `sampleOps`. -/
theorem lookAt_initialCamera_witness :
    (loop sampleOps (initialFrame sampleOps) 0).viewMatrix
      = ⟨-1, 0, 0, 0,  0, 1, 0, 0,  0, 0, -1, 0,  0, 0, -4, 1⟩ :=
  (lookAt_initialCamera sampleOps (initialFrame sampleOps) 0
    (by norm_num [sampleOps, Rat.sqrt, Nat.sqrt])
    (by norm_num [sampleOps, Rat.sqrt, Nat.sqrt])
    (by norm_num [sampleOps, Rat.sqrt, Nat.sqrt])
    rfl).2

/-- C10: when `Math.hypot(1, 1, 1)` is not below the library's `EPSILON`, the
world matrix after one tick at timestamp `now` is the rotation of the identity
about `(1,1,1)` by `now / 1000 / 60 * 23 * pi`: it is the same from any two
prior states (whatever their world matrix, angle, view matrix and camera). -/
theorem loop_worldMatrix_of_timestamp (ops : MathOps) (st₁ st₂ : FrameState) (now : ℚ)
    (hlen : EPSILON ≤ ops.hypot 1 1 1) :
    (loop ops st₁ now).worldMatrix = (loop ops st₂ now).worldMatrix ∧
    (loop ops st₁ now).angle = now / 1000 / 60 * 23 * ops.pi ∧
    (loop ops st₁ now).worldMatrix
      = rotationAbout ops ⟨1, 1, 1⟩ (now / 1000 / 60 * 23 * ops.pi) := by
  have hnot : ¬ ops.hypot 1 1 1 < EPSILON := not_lt.mpr hlen
  have h : ∀ st : FrameState, (loop ops st now).worldMatrix
      = rotationAbout ops ⟨1, 1, 1⟩ (now / 1000 / 60 * 23 * ops.pi) := by
    intro st
    have e : (1.0 : ℚ) = 1 := by norm_num
    simp only [loop, Mat4.rotate, e, if_neg hnot, rotationAbout, identityMat, create_rat,
      Mat4.mk.injEq]
    refine ⟨?_, ?_, ?_, ?_, ?_, ?_, ?_, ?_, ?_, ?_, ?_, ?_, trivial, trivial, trivial, trivial⟩ <;>
      ring
  exact ⟨(h st₁).trans (h st₂).symm, rfl, h st₁⟩

/-- Instance of C10: two different prior states, one tick at `now = 1000`. -/
theorem loop_worldMatrix_of_timestamp_witness :
    EPSILON ≤ sampleOps.hypot 1 1 1 ∧
    (loop sampleOps (initialFrame sampleOps) 1000).worldMatrix
      = (loop sampleOps
          { worldMatrix := ⟨2, 0, 0, 0, 0, 2, 0, 0, 0, 0, 2, 0, 5, 5, 5, 1⟩
            viewMatrix := Mat4.create
            angle := 7
            camera := keydown initialCamera "ArrowLeft" } 1000).worldMatrix :=
  ⟨by norm_num [sampleOps, Rat.sqrt, Nat.sqrt, EPSILON],
   (loop_worldMatrix_of_timestamp sampleOps _ _ 1000
      (by norm_num [sampleOps, Rat.sqrt, Nat.sqrt, EPSILON])).1⟩

/-! ## Mesh generator on the program's numbers -/

/-- Vertex `i` of the mesh on the program's numbers. -/
theorem vertexAt_generateCubeVerts (x y z s sf : ℚ) (hx : round64 x = .fin x)
    (hy : round64 y = .fin y) (hz : round64 z = .fin z) (hs : round64 s = .fin s)
    (hsf : round32 s = .fin sf) (i : ℕ) (hi : i < 8) :
    vertexAt (generateCubeVerts (JSNum.fin x) (.fin y) (.fin z) (.fin s)).vertices i
      = ⟨roundedCoord sf x (canonicalCorners.getD i ⟨0, 0, 0⟩).c0,
         roundedCoord sf y (canonicalCorners.getD i ⟨0, 0, 0⟩).c1,
         roundedCoord sf z (canonicalCorners.getD i ⟨0, 0, 0⟩).c2⟩ := by
  rw [generateCubeVerts_JSNum x y z s sf hx hy hz hs hsf]
  interval_cases i <;> simp [canonicalCorners, vertexAt]

/-- A coordinate the program computes is within four roundings of the exact
`p + c * s`. -/
theorem roundedCoord_err (s sf p c v : ℚ) (hc : c = 1 ∨ c = -1) (hsf : round32 s = .fin sf)
    (hv : roundedCoord sf p c = .fin v) :
    |v - (p + c * s)| ≤ (2 : ℚ) ^ (-22 : ℤ) * (|p| + |s|) + (2 : ℚ) ^ (-147 : ℤ) := by
  unfold roundedCoord at hv
  cases hT : round32 p with
  | fin t =>
    rw [hT] at hv
    simp only [JSNum.add] at hv
    cases hU : round64 (c * sf + t) with
    | fin u =>
      rw [hU] at hv
      simp only [JSNum.fround] at hv
      have e1 := roundBin_err 24 (-126) 127 s sf hsf
      have e2 := roundBin_err 24 (-126) 127 p t hT
      have e3 := roundBin_err 53 (-1022) 1023 (c * sf + t) u hU
      have e4 := roundBin_err 24 (-126) 127 u v hv
      have hcabs : |c| = 1 := by rcases hc with rfl | rfl <;> norm_num
      have t1 : |c * sf + t| ≤ |sf| + |t| := by
        calc |c * sf + t| ≤ |c * sf| + |t| := abs_add _ _
          _ = |sf| + |t| := by rw [abs_mul, hcabs, one_mul]
      have t2 : |sf| ≤ |s| + |sf - s| := by
        calc |sf| = |s + (sf - s)| := by ring_nf
          _ ≤ |s| + |sf - s| := abs_add _ _
      have t3 : |t| ≤ |p| + |t - p| := by
        calc |t| = |p + (t - p)| := by ring_nf
          _ ≤ |p| + |t - p| := abs_add _ _
      have t4 : |u| ≤ |c * sf + t| + |u - (c * sf + t)| := by
        calc |u| = |(c * sf + t) + (u - (c * sf + t))| := by ring_nf
          _ ≤ |c * sf + t| + |u - (c * sf + t)| := abs_add _ _
      have t5 : |v - (p + c * s)| ≤ |v - u| + |u - (c * sf + t)| + |sf - s| + |t - p| := by
        have : v - (p + c * s) = (v - u) + (u - (c * sf + t)) + c * (sf - s) + (t - p) := by ring
        rw [this]
        calc |(v - u) + (u - (c * sf + t)) + c * (sf - s) + (t - p)|
            ≤ |(v - u) + (u - (c * sf + t)) + c * (sf - s)| + |t - p| := abs_add _ _
          _ ≤ |(v - u) + (u - (c * sf + t))| + |c * (sf - s)| + |t - p| := by
            gcongr; exact abs_add _ _
          _ ≤ |v - u| + |u - (c * sf + t)| + |c * (sf - s)| + |t - p| := by
            gcongr; exact abs_add _ _
          _ = |v - u| + |u - (c * sf + t)| + |sf - s| + |t - p| := by
            rw [abs_mul, hcabs, one_mul]
      have hp0 := abs_nonneg p
      have hs0 := abs_nonneg s
      norm_num at e1 e2 e3 e4 ⊢
      linarith
    | posInf => rw [hU] at hv; simp [JSNum.fround] at hv
    | negInf => rw [hU] at hv; simp [JSNum.fround] at hv
    | nan => rw [hU] at hv; simp [JSNum.fround] at hv
  | posInf => rw [hT] at hv; simp [JSNum.add, JSNum.fround] at hv
  | negInf => rw [hT] at hv; simp [JSNum.add, JSNum.fround] at hv
  | nan => rw [hT] at hv; simp [JSNum.add, JSNum.fround] at hv

/-- A coordinate the program computes is exactly `p + c * s` when the position
and that sum are single-precision numbers (`s` being the scale as stored). -/
theorem roundedCoord_exact (s p c : ℚ)
    (hp : round32 p = .fin p) (hsum : round32 (p + c * s) = .fin (p + c * s)) :
    roundedCoord s p c = .fin (p + c * s) := by
  unfold roundedCoord
  have hD := round64_of_round32 _ _ hsum
  rw [hp]
  simp only [JSNum.add, JSNum.fround]
  rw [add_comm (c * s) p, hD]
  simp only [JSNum.fround]
  exact hsum

/-- C1 (as stated) fails on the program's numbers: for position
`(0.1, 0.2, 0.3)` and scale `0.35` the second returned number is
`0.550000011920928955078125`, which is neither the number `0.2 + 0.35 * 1` nor
the exact sum of the two arguments; the whole list differs from `p + s * c_i`
computed either way. -/
theorem generateCubeVerts_vertices_counterexample :
    (0 : ℚ) < (lit 0.35 : JSNum).toRat ∧
    (generateCubeVerts (lit 0.1) (lit 0.2) (lit 0.3) (lit 0.35 : JSNum)).vertices.getD 1 .nan
      = .fin (9227469 / 16777216) ∧
    (generateCubeVerts (lit 0.1) (lit 0.2) (lit 0.3) (lit 0.35 : JSNum)).vertices.getD 1 .nan
      ≠ JSNum.add (lit 0.2) (JSNum.mul (lit 0.35) (.fin 1)) ∧
    (generateCubeVerts (lit 0.1) (lit 0.2) (lit 0.3) (lit 0.35 : JSNum)).vertices ≠
      (canonicalCorners.map fun c =>
        [JSNum.add (lit 0.1) (JSNum.mul (lit 0.35) (.fin c.c0)),
         JSNum.add (lit 0.2) (JSNum.mul (lit 0.35) (.fin c.c1)),
         JSNum.add (lit 0.3) (JSNum.mul (lit 0.35) (.fin c.c2))]).flatten ∧
    values (generateCubeVerts (lit 0.1) (lit 0.2) (lit 0.3) (lit 0.35 : JSNum)).vertices ≠
      (canonicalCorners.map fun c =>
        [(lit 0.1 : JSNum).toRat + (lit 0.35 : JSNum).toRat * c.c0,
         (lit 0.2 : JSNum).toRat + (lit 0.35 : JSNum).toRat * c.c1,
         (lit 0.3 : JSNum).toRat + (lit 0.35 : JSNum).toRat * c.c2]).flatten := by
  decide!

/-- C1 on the program's numbers: for every finite position `(x, y, z)` and every finite scale
`s` whose single-precision value `sf` is finite, `generateCubeVerts` returns
exactly 24 numbers which, read as 8 triples in the fixed corner order, are on
each axis `roundedCoord sf p c`: the corner sign `c` times the stored scale,
plus the stored position, rounded to a number and stored in single precision
(the scale is applied before the translation).  Such a coordinate, when
finite, is within `2^-22 (|p| + |s|) + 2^-147` of `p + s * c`, and is exactly
`p + s * c` when `s`, `p` and `p + s * c` are single-precision numbers. -/
theorem generateCubeVerts_vertices (x y z s sf : ℚ) (hx : round64 x = .fin x)
    (hy : round64 y = .fin y) (hz : round64 z = .fin z) (hs : round64 s = .fin s)
    (hsf : round32 s = .fin sf) :
    (startCubeVerts : List JSNum)
      = (canonicalCorners.map fun c => [JSNum.fin c.c0, .fin c.c1, .fin c.c2]).flatten ∧
    (generateCubeVerts (JSNum.fin x) (.fin y) (.fin z) (.fin s)).vertices.length = 24 ∧
    (generateCubeVerts (JSNum.fin x) (.fin y) (.fin z) (.fin s)).vertices =
      (canonicalCorners.map fun c =>
        [roundedCoord sf x c.c0, roundedCoord sf y c.c1, roundedCoord sf z c.c2]).flatten ∧
    (∀ i, i < 8 →
      vertexAt (generateCubeVerts (JSNum.fin x) (.fin y) (.fin z) (.fin s)).vertices i
        = ⟨roundedCoord sf x (canonicalCorners.getD i ⟨0, 0, 0⟩).c0,
           roundedCoord sf y (canonicalCorners.getD i ⟨0, 0, 0⟩).c1,
           roundedCoord sf z (canonicalCorners.getD i ⟨0, 0, 0⟩).c2⟩) ∧
    (∀ p c v, c = 1 ∨ c = -1 → roundedCoord sf p c = .fin v →
      |v - (p + s * c)| ≤ (2 : ℚ) ^ (-22 : ℤ) * (|p| + |s|) + (2 : ℚ) ^ (-147 : ℤ)) ∧
    (∀ p c, round32 s = .fin s → round32 p = .fin p →
      round32 (p + s * c) = .fin (p + s * c) → roundedCoord sf p c = .fin (p + s * c)) := by
  refine ⟨by decide!, generateCubeVerts_length _ _ _ _,
    generateCubeVerts_JSNum x y z s sf hx hy hz hs hsf,
    vertexAt_generateCubeVerts x y z s sf hx hy hz hs hsf, ?_, ?_⟩
  · intro p c v hc hv
    rw [mul_comm s c]
    exact roundedCoord_err s sf p c v hc hsf hv
  · intro p c hs' hp hsum
    have e : sf = s := by
      rw [hsf] at hs'; injection hs'
    rw [e, mul_comm s c] at *
    exact roundedCoord_exact s p c hp hsum

/-- Instance of C1 on the program's numbers at the start-up call `(0, 0, 0, 0.35)`: the first
returned number is `-0.3499999940395355224609375`. -/
theorem generateCubeVerts_vertices_witness :
    (generateCubeVerts (JSNum.fin 0) (.fin 0) (.fin 0)
        (.fin (3152519739159347 / 9007199254740992))).vertices.getD 0 .nan
      = roundedCoord (11744051 / 33554432) 0 (-1) ∧
    roundedCoord (11744051 / 33554432) 0 (-1) = .fin (-(11744051 / 33554432)) :=
  ⟨by
    have h := (generateCubeVerts_vertices 0 0 0 (3152519739159347 / 9007199254740992)
      (11744051 / 33554432) (by decide!) (by decide!) (by decide!) (by decide!)
      (by decide!)).2.2.1
    rw [h]; simp [canonicalCorners],
   by decide!⟩

/-- C4 (as stated) fails on the program's numbers: the largest absolute
coordinate of the start-up mesh is `0.3499999940395355224609375`, which is not
`0.35`, nor the number the literal `0.35` denotes. -/
theorem generateCubeVerts_startup_counterexample :
    maxAbs (values (generateCubeVerts (lit 0.0) (lit 0.0) (lit 0.0) (lit 0.35 : JSNum)).vertices)
      = 11744051 / 33554432 ∧
    maxAbs (values (generateCubeVerts (lit 0.0) (lit 0.0) (lit 0.0) (lit 0.35 : JSNum)).vertices)
      ≠ 0.35 ∧
    JSNum.fin (maxAbs
        (values (generateCubeVerts (lit 0.0) (lit 0.0) (lit 0.0) (lit 0.35 : JSNum)).vertices))
      ≠ lit 0.35 := by
  decide!

/-- C4 on the program's numbers: the start-up call `generateCubeVerts(0, 0, 0, 0.35)` returns 24
finite numbers, each of absolute value exactly
`11744051 / 2^25 = 0.3499999940395355224609375`, the single-precision value of
`0.35`; so this is the largest absolute coordinate, and it is within `2^-27`
of `0.35`. -/
theorem generateCubeVerts_startup :
    (generateCubeVerts (lit 0.0) (lit 0.0) (lit 0.0) (lit 0.35 : JSNum)).vertices.length = 24 ∧
    (∀ v ∈ (generateCubeVerts (lit 0.0) (lit 0.0) (lit 0.0) (lit 0.35 : JSNum)).vertices,
      v.isFinite = true ∧ |v.toRat| = 11744051 / 33554432) ∧
    maxAbs (values (generateCubeVerts (lit 0.0) (lit 0.0) (lit 0.0) (lit 0.35 : JSNum)).vertices)
      = 11744051 / 33554432 ∧
    JSNum.fround (lit 0.35) = .fin (11744051 / 33554432) ∧
    |(11744051 / 33554432 : ℚ) - 0.35| < (2 : ℚ) ^ (-27 : ℤ) := by
  refine ⟨by decide!, by decide!, by decide!, by decide!, ?_⟩
  norm_num [abs_lt]

/-- Rounding gives a finite number when the magnitude, with its rounding error,
stays below `2 ^ (emax + 1)`. -/
theorem roundBin_finite (prec : ℕ) (emin emax : ℤ) (q : ℚ)
    (h : |q| + ((2 : ℚ) ^ (-(prec : ℤ)) * |q| + (2 : ℚ) ^ (emin - (prec : ℤ)))
      < (2 : ℚ) ^ (emax + 1)) :
    ∃ r, roundBin prec emin emax q = .fin r := by
  unfold roundBin
  by_cases h0 : q = 0
  · exact ⟨0, by rw [if_pos h0]⟩
  · have hpos : 0 < |q| := abs_pos.mpr h0
    have herr := roundMag_err prec emin |q| hpos
    have hle : roundMag prec emin |q| ≤ |q| + abs (roundMag prec emin |q| - |q|) := by
      have := le_abs_self (roundMag prec emin |q| - |q|)
      linarith only [this]
    have hov : ¬ pow2 (emax + 1) ≤ roundMag prec emin |q| := by
      rw [pow2_eq, not_le]
      linarith only [h, herr, hle]
    rw [if_neg h0, if_neg hov]
    exact ⟨_, rfl⟩

/-- For a position and a scale of moderate size the coordinate the program
computes is finite and close to `p + c * s`. -/
theorem roundedCoord_close (s sf p c : ℚ) (hc : c = 1 ∨ c = -1) (hsf : round32 s = .fin sf)
    (hs : |s| ≤ (2 : ℚ) ^ (100 : ℤ)) (hp : |p| ≤ (2 : ℚ) ^ (100 : ℤ)) :
    ∃ v, roundedCoord sf p c = .fin v ∧
      |v - (p + c * s)| ≤ (2 : ℚ) ^ (-22 : ℤ) * (|p| + |s|) + (2 : ℚ) ^ (-147 : ℤ) := by
  have hcabs : |c| = 1 := by rcases hc with rfl | rfl <;> norm_num
  have e1 := roundBin_err 24 (-126) 127 s sf hsf
  have bsf : |sf| ≤ (2 : ℚ) ^ (101 : ℤ) := by
    have t : |sf| ≤ |s| + |sf - s| := by
      calc |sf| = |s + (sf - s)| := by ring_nf
        _ ≤ |s| + |sf - s| := abs_add _ _
    norm_num at e1 hs t ⊢
    linarith only [e1, hs, t]
  obtain ⟨t, hT⟩ := roundBin_finite 24 (-126) 127 p (by
    norm_num at hp ⊢
    linarith only [hp, abs_nonneg p])
  have e2 := roundBin_err 24 (-126) 127 p t hT
  have bt : |t| ≤ (2 : ℚ) ^ (101 : ℤ) := by
    have tt : |t| ≤ |p| + |t - p| := by
      calc |t| = |p + (t - p)| := by ring_nf
        _ ≤ |p| + |t - p| := abs_add _ _
    norm_num at e2 hp tt ⊢
    linarith only [e2, hp, tt]
  have bw : |c * sf + t| ≤ (2 : ℚ) ^ (102 : ℤ) := by
    have tw : |c * sf + t| ≤ |sf| + |t| := by
      calc |c * sf + t| ≤ |c * sf| + |t| := abs_add _ _
        _ = |sf| + |t| := by rw [abs_mul, hcabs, one_mul]
    norm_num at bsf bt tw ⊢
    linarith only [bsf, bt, tw]
  obtain ⟨u, hU⟩ := roundBin_finite 53 (-1022) 1023 (c * sf + t) (by
    norm_num at bw ⊢
    linarith only [bw, abs_nonneg (c * sf + t)])
  have e3 := roundBin_err 53 (-1022) 1023 (c * sf + t) u hU
  have bu : |u| ≤ (2 : ℚ) ^ (103 : ℤ) := by
    have tu : |u| ≤ |c * sf + t| + |u - (c * sf + t)| := by
      calc |u| = |(c * sf + t) + (u - (c * sf + t))| := by ring_nf
        _ ≤ |c * sf + t| + |u - (c * sf + t)| := abs_add _ _
    norm_num at e3 bw tu ⊢
    linarith only [e3, bw, tu]
  obtain ⟨v, hV⟩ := roundBin_finite 24 (-126) 127 u (by
    norm_num at bu ⊢
    linarith only [bu, abs_nonneg u])
  have hv : roundedCoord sf p c = .fin v := by
    unfold roundedCoord
    have hT' : round32 p = .fin t := hT
    have hU' : round64 (c * sf + t) = .fin u := hU
    rw [hT']
    simp only [JSNum.add, hU', JSNum.fround]
    exact hV
  exact ⟨v, hv, roundedCoord_err s sf p c v hc hsf hv⟩

/-- For a scale of moderate size and a position within `2^20` scales of the
origin, the low and the high coordinate the program computes on an axis are
finite and lie strictly on either side of the position. -/
theorem roundedCoord_straddle (s sf p : ℚ) (hsf : round32 s = .fin sf)
    (hlo : (2 : ℚ) ^ (-140 : ℤ) ≤ s) (hhi : s ≤ (2 : ℚ) ^ (80 : ℤ))
    (hp : |p| ≤ (2 : ℚ) ^ (20 : ℤ) * s) :
    ∃ l h, roundedCoord sf p (-1) = .fin l ∧ roundedCoord sf p 1 = .fin h ∧ l < p ∧ p < h := by
  have hs0 : 0 < s := lt_of_lt_of_le (by positivity) hlo
  have hsabs : |s| = s := abs_of_pos hs0
  have hs100 : |s| ≤ (2 : ℚ) ^ (100 : ℤ) := by
    rw [hsabs]; norm_num at hhi ⊢; linarith only [hhi]
  have hp100 : |p| ≤ (2 : ℚ) ^ (100 : ℤ) := by
    norm_num at hhi hp ⊢; linarith only [hhi, hp]
  obtain ⟨l, hl, el⟩ := roundedCoord_close s sf p (-1) (Or.inr rfl) hsf hs100 hp100
  obtain ⟨h, hh, eh⟩ := roundedCoord_close s sf p 1 (Or.inl rfl) hsf hs100 hp100
  refine ⟨l, h, hl, hh, ?_, ?_⟩
  · have := (abs_le.mp el).2
    rw [hsabs] at this
    norm_num at this hlo hp ⊢
    linarith only [this, hlo, hp]
  · have := (abs_le.mp eh).1
    rw [hsabs] at this
    norm_num at this hlo hp ⊢
    linarith only [this, hlo, hp]

/-- A scale of moderate size has a finite single-precision value. -/
theorem round32_scale_finite (s : ℚ) (hlo : (2 : ℚ) ^ (-140 : ℤ) ≤ s)
    (hhi : s ≤ (2 : ℚ) ^ (80 : ℤ)) : ∃ sf, round32 s = .fin sf := by
  have hs0 : 0 < s := lt_of_lt_of_le (by positivity) hlo
  apply roundBin_finite
  rw [abs_of_pos hs0]
  norm_num at hhi ⊢
  linarith only [hhi, hs0]

/-- A scale beyond the single-precision range: for position `(0, 0, 0)` and
scale `1e39` the scale matrix holds `Infinity`, the products with the zero
entries are `NaN`, and all 24 returned numbers are `NaN`. -/
theorem generateCubeVerts_scale_overflow :
    (generateCubeVerts (lit 0) (lit 0) (lit 0) (lit 1e39 : JSNum)).vertices
      = List.replicate 24 JSNum.nan := by
  decide!

/-- A scale below the single-precision range: for position `(0, 0, 0)` and
scale `1e-46` the scale matrix holds zeros and all 24 returned numbers are
`0`. -/
theorem generateCubeVerts_scale_underflow :
    (generateCubeVerts (lit 0) (lit 0) (lit 0) (lit 1e-46 : JSNum)).vertices
      = List.replicate 24 (JSNum.fin 0) := by
  decide!

/-- C8 (as stated) fails on the program's numbers: for position
`(1e8, 1e8, 1e8)` and scale `1` all 8 returned vertices are the same point. -/
theorem generateCubeVerts_distinct_counterexample :
    (0 : ℚ) < (lit 1 : JSNum).toRat ∧
    (∀ i, i < 8 →
      vertexAt (generateCubeVerts (lit 1e8) (lit 1e8) (lit 1e8) (lit 1 : JSNum)).vertices i
        = ⟨.fin 100000000, .fin 100000000, .fin 100000000⟩) ∧
    ¬ ((List.range 8).map
        (vertexAt (generateCubeVerts (lit 1e8) (lit 1e8) (lit 1e8) (lit 1 : JSNum)).vertices)).Nodup := by
  decide!

/-- For every finite position and finite scale whose single-precision value
`sf` is finite, the 8 returned vertex positions are pairwise distinct whenever
on each axis the low coordinate `roundedCoord sf p (-1)` differs from the high
coordinate `roundedCoord sf p 1`. -/
theorem generateCubeVerts_distinct_of_ne (x y z s sf : ℚ) (hx : round64 x = .fin x)
    (hy : round64 y = .fin y) (hz : round64 z = .fin z) (hs : round64 s = .fin s)
    (hsf : round32 s = .fin sf)
    (hdx : roundedCoord sf x (-1) ≠ roundedCoord sf x 1)
    (hdy : roundedCoord sf y (-1) ≠ roundedCoord sf y 1)
    (hdz : roundedCoord sf z (-1) ≠ roundedCoord sf z 1) :
    ((List.range 8).map
      (vertexAt (generateCubeVerts (JSNum.fin x) (.fin y) (.fin z) (.fin s)).vertices)).Nodup ∧
    ∀ i j, i < 8 → j < 8 →
      vertexAt (generateCubeVerts (JSNum.fin x) (.fin y) (.fin z) (.fin s)).vertices i
        = vertexAt (generateCubeVerts (JSNum.fin x) (.fin y) (.fin z) (.fin s)).vertices j →
      i = j := by
  have key : ∀ i j, i < 8 → j < 8 →
      vertexAt (generateCubeVerts (JSNum.fin x) (.fin y) (.fin z) (.fin s)).vertices i
        = vertexAt (generateCubeVerts (JSNum.fin x) (.fin y) (.fin z) (.fin s)).vertices j →
      i = j := by
    intro i j hi hj h
    rw [vertexAt_generateCubeVerts x y z s sf hx hy hz hs hsf i hi,
      vertexAt_generateCubeVerts x y z s sf hx hy hz hs hsf j hj] at h
    have hdx' := hdx.symm
    have hdy' := hdy.symm
    have hdz' := hdz.symm
    interval_cases i <;> interval_cases j <;>
      simp_all [canonicalCorners]
  refine ⟨?_, key⟩
  rw [List.nodup_iff_injective_get]
  intro a b hab
  have ha : a.1 < 8 := by simpa using a.2
  have hb : b.1 < 8 := by simpa using b.2
  simp only [List.get_eq_getElem, List.getElem_map, List.getElem_range] at hab
  exact Fin.ext (key a.1 b.1 ha hb hab)

/-- C8 on the program's numbers: for every position `p = (x, y, z)` and scale `s`
that are doubles with `2^-140 ≤ s ≤ 2^80` and `|p_k| ≤ 2^20 * s` on each axis,
the 8 returned vertex positions are pairwise distinct. -/
theorem generateCubeVerts_distinct (x y z s : ℚ) (hx : round64 x = .fin x)
    (hy : round64 y = .fin y) (hz : round64 z = .fin z) (hs : round64 s = .fin s)
    (hlo : (2 : ℚ) ^ (-140 : ℤ) ≤ s) (hhi : s ≤ (2 : ℚ) ^ (80 : ℤ))
    (bx : |x| ≤ (2 : ℚ) ^ (20 : ℤ) * s) (bY : |y| ≤ (2 : ℚ) ^ (20 : ℤ) * s)
    (bz : |z| ≤ (2 : ℚ) ^ (20 : ℤ) * s) :
    ((List.range 8).map
      (vertexAt (generateCubeVerts (JSNum.fin x) (.fin y) (.fin z) (.fin s)).vertices)).Nodup ∧
    ∀ i j, i < 8 → j < 8 →
      vertexAt (generateCubeVerts (JSNum.fin x) (.fin y) (.fin z) (.fin s)).vertices i
        = vertexAt (generateCubeVerts (JSNum.fin x) (.fin y) (.fin z) (.fin s)).vertices j →
      i = j := by
  obtain ⟨sf, hsf⟩ := round32_scale_finite s hlo hhi
  obtain ⟨l0, h0, el0, eh0, a0, c0⟩ := roundedCoord_straddle s sf x hsf hlo hhi bx
  obtain ⟨l1, h1, el1, eh1, a1, c1⟩ := roundedCoord_straddle s sf y hsf hlo hhi bY
  obtain ⟨l2, h2, el2, eh2, a2, c2⟩ := roundedCoord_straddle s sf z hsf hlo hhi bz
  refine generateCubeVerts_distinct_of_ne x y z s sf hx hy hz hs hsf ?_ ?_ ?_
  · rw [el0, eh0]
    intro h
    have e : l0 = h0 := by injection h
    linarith only [e, a0, c0]
  · rw [el1, eh1]
    intro h
    have e : l1 = h1 := by injection h
    linarith only [e, a1, c1]
  · rw [el2, eh2]
    intro h
    have e : l2 = h2 := by injection h
    linarith only [e, a2, c2]

/-- Instance of C8 on the program's numbers at the start-up call. -/
theorem generateCubeVerts_distinct_witness :
    ((List.range 8).map
      (vertexAt (generateCubeVerts (JSNum.fin 0) (.fin 0) (.fin 0)
        (.fin (3152519739159347 / 9007199254740992))).vertices)).Nodup :=
  (generateCubeVerts_distinct 0 0 0 (3152519739159347 / 9007199254740992)
    (by decide!) (by decide!) (by decide!) (by decide!) (by norm_num) (by norm_num)
    (by norm_num) (by norm_num) (by norm_num)).1

/-! ## Winding of the triangles -/

/-- The triangles of the index list, written out. -/
theorem triangles_boxIndices :
    triangles boxIndices =
      [(4, 5, 6), (4, 6, 7), (0, 2, 1), (0, 3, 2), (1, 5, 0), (0, 5, 4),
       (3, 6, 2), (3, 7, 6), (1, 2, 5), (5, 2, 6), (0, 4, 3), (4, 7, 3)] := by
  simp [triangles, boxIndices]

/-- The normal of a triangle over three points of a box, from the normal of
their relative coordinates. -/
theorem boxPoint_cross (lo hi ca cb cc d : Vec3 ℚ)
    (hn : (cb.sub ca).cross (cc.sub ca) = Vec3.smul 4 d) :
    ((boxPoint lo hi cb).sub (boxPoint lo hi ca)).cross
        ((boxPoint lo hi cc).sub (boxPoint lo hi ca))
      = ⟨(hi.c1 - lo.c1) * (hi.c2 - lo.c2) * d.c0, (hi.c2 - lo.c2) * (hi.c0 - lo.c0) * d.c1,
         (hi.c0 - lo.c0) * (hi.c1 - lo.c1) * d.c2⟩ := by
  obtain ⟨l0, l1, l2⟩ := lo
  obtain ⟨u0, u1, u2⟩ := hi
  obtain ⟨a0, a1, a2⟩ := ca
  obtain ⟨b0, b1, b2⟩ := cb
  obtain ⟨c0, c1, c2⟩ := cc
  obtain ⟨d0, d1, d2⟩ := d
  simp only [Vec3.sub, Vec3.cross, Vec3.smul, Vec3.mk.injEq] at hn
  obtain ⟨n0, n1, n2⟩ := hn
  simp only [boxPoint, Vec3.sub, Vec3.cross, Vec3.mk.injEq]
  refine ⟨?_, ?_, ?_⟩
  · linear_combination ((u1 - l1) * (u2 - l2) / 4) * n0
  · linear_combination ((u2 - l2) * (u0 - l0) / 4) * n1
  · linear_combination ((u0 - l0) * (u1 - l1) / 4) * n2

/-- The centroid of three points of a box. -/
theorem boxPoint_centroid (lo hi ca cb cc : Vec3 ℚ) :
    Vec3.smul (1 / 3) (((boxPoint lo hi ca).add (boxPoint lo hi cb)).add (boxPoint lo hi cc))
      = boxPoint lo hi (Vec3.smul (1 / 3) ((ca.add cb).add cc)) := by
  simp only [boxPoint, Vec3.smul, Vec3.add, Vec3.mk.injEq]
  refine ⟨?_, ?_, ?_⟩ <;> ring

/-- A triangle over three points of a box whose relative coordinates lie on the
face of the axis direction `d` and wind around `d`: its normal is a positive
multiple of `d`, non-zero, and points away from every point `p` strictly
inside the box; its three points have the same coordinate along `d`. -/
theorem triangle_on_box_face (lo hi p ca cb cc d : Vec3 ℚ)
    (h0 : lo.c0 < p.c0 ∧ p.c0 < hi.c0) (h1 : lo.c1 < p.c1 ∧ p.c1 < hi.c1)
    (h2 : lo.c2 < p.c2 ∧ p.c2 < hi.c2) (hd : d ∈ axisDirections)
    (hn : (cb.sub ca).cross (cc.sub ca) = Vec3.smul 4 d)
    (hda : ca.dot d = 1) (hdb : cb.dot d = 1) (hdc : cc.dot d = 1) :
    ((boxPoint lo hi cb).sub (boxPoint lo hi ca)).cross
        ((boxPoint lo hi cc).sub (boxPoint lo hi ca)) ≠ ⟨0, 0, 0⟩ ∧
    0 < (((boxPoint lo hi cb).sub (boxPoint lo hi ca)).cross
          ((boxPoint lo hi cc).sub (boxPoint lo hi ca))).dot
        ((Vec3.smul (1 / 3) (((boxPoint lo hi ca).add (boxPoint lo hi cb)).add
          (boxPoint lo hi cc))).sub p) ∧
    pointsAlong d (((boxPoint lo hi cb).sub (boxPoint lo hi ca)).cross
        ((boxPoint lo hi cc).sub (boxPoint lo hi ca))) ∧
    (boxPoint lo hi ca).dot d = (boxPoint lo hi cb).dot d ∧
    (boxPoint lo hi cb).dot d = (boxPoint lo hi cc).dot d := by
  rw [boxPoint_cross lo hi ca cb cc d hn, boxPoint_centroid]
  clear hn
  obtain ⟨l0, l1, l2⟩ := lo
  obtain ⟨u0, u1, u2⟩ := hi
  obtain ⟨p0, p1, p2⟩ := p
  obtain ⟨a0, a1, a2⟩ := ca
  obtain ⟨b0, b1, b2⟩ := cb
  obtain ⟨c0, c1, c2⟩ := cc
  obtain ⟨d0, d1, d2⟩ := d
  simp only [] at h0 h1 h2
  have w0 : 0 < u0 - l0 := by linarith only [h0.1, h0.2]
  have w1 : 0 < u1 - l1 := by linarith only [h1.1, h1.2]
  have w2 : 0 < u2 - l2 := by linarith only [h2.1, h2.2]
  have w12 := mul_pos w1 w2
  have w20 := mul_pos w2 w0
  have w01 := mul_pos w0 w1
  have q0 := mul_pos w12 (sub_pos.2 h0.2)
  have q0' := mul_pos w12 (sub_pos.2 h0.1)
  have q1 := mul_pos w20 (sub_pos.2 h1.2)
  have q1' := mul_pos w20 (sub_pos.2 h1.1)
  have q2 := mul_pos w01 (sub_pos.2 h2.2)
  have q2' := mul_pos w01 (sub_pos.2 h2.1)
  simp only [Vec3.dot] at hda hdb hdc
  simp only [boxPoint, Vec3.sub, Vec3.cross, Vec3.smul, Vec3.dot, Vec3.add, pointsAlong]
  simp only [axisDirections, List.mem_cons, List.mem_singleton, List.not_mem_nil, or_false,
    Vec3.mk.injEq] at hd
  rcases hd with ⟨rfl, rfl, rfl⟩ | ⟨rfl, rfl, rfl⟩ | ⟨rfl, rfl, rfl⟩ | ⟨rfl, rfl, rfl⟩ |
    ⟨rfl, rfl, rfl⟩ | ⟨rfl, rfl, rfl⟩
  · have ha : a0 = 1 := by linarith only [hda]
    have hb : b0 = 1 := by linarith only [hdb]
    have hc : c0 = 1 := by linarith only [hdc]
    subst ha hb hc
    refine ⟨?_, ?_, ⟨?_, ?_⟩, ?_, ?_⟩
    · intro hz; simp only [Vec3.mk.injEq] at hz; linarith only [hz.1, w12]
    · linarith only [q0]
    · linarith only [w12]
    · simp only [Vec3.mk.injEq]; refine ⟨?_, ?_, ?_⟩ <;> ring
    · ring
    · ring
  · have ha : a0 = -1 := by linarith only [hda]
    have hb : b0 = -1 := by linarith only [hdb]
    have hc : c0 = -1 := by linarith only [hdc]
    subst ha hb hc
    refine ⟨?_, ?_, ⟨?_, ?_⟩, ?_, ?_⟩
    · intro hz; simp only [Vec3.mk.injEq] at hz; linarith only [hz.1, w12]
    · linarith only [q0']
    · linarith only [w12]
    · simp only [Vec3.mk.injEq]; refine ⟨?_, ?_, ?_⟩ <;> ring
    · ring
    · ring
  · have ha : a1 = 1 := by linarith only [hda]
    have hb : b1 = 1 := by linarith only [hdb]
    have hc : c1 = 1 := by linarith only [hdc]
    subst ha hb hc
    refine ⟨?_, ?_, ⟨?_, ?_⟩, ?_, ?_⟩
    · intro hz; simp only [Vec3.mk.injEq] at hz; linarith only [hz.2.1, w20]
    · linarith only [q1]
    · linarith only [w20]
    · simp only [Vec3.mk.injEq]; refine ⟨?_, ?_, ?_⟩ <;> ring
    · ring
    · ring
  · have ha : a1 = -1 := by linarith only [hda]
    have hb : b1 = -1 := by linarith only [hdb]
    have hc : c1 = -1 := by linarith only [hdc]
    subst ha hb hc
    refine ⟨?_, ?_, ⟨?_, ?_⟩, ?_, ?_⟩
    · intro hz; simp only [Vec3.mk.injEq] at hz; linarith only [hz.2.1, w20]
    · linarith only [q1']
    · linarith only [w20]
    · simp only [Vec3.mk.injEq]; refine ⟨?_, ?_, ?_⟩ <;> ring
    · ring
    · ring
  · have ha : a2 = 1 := by linarith only [hda]
    have hb : b2 = 1 := by linarith only [hdb]
    have hc : c2 = 1 := by linarith only [hdc]
    subst ha hb hc
    refine ⟨?_, ?_, ⟨?_, ?_⟩, ?_, ?_⟩
    · intro hz; simp only [Vec3.mk.injEq] at hz; linarith only [hz.2.2, w01]
    · linarith only [q2]
    · linarith only [w01]
    · simp only [Vec3.mk.injEq]; refine ⟨?_, ?_, ?_⟩ <;> ring
    · ring
    · ring
  · have ha : a2 = -1 := by linarith only [hda]
    have hb : b2 = -1 := by linarith only [hdb]
    have hc : c2 = -1 := by linarith only [hdc]
    subst ha hb hc
    refine ⟨?_, ?_, ⟨?_, ?_⟩, ?_, ?_⟩
    · intro hz; simp only [Vec3.mk.injEq] at hz; linarith only [hz.2.2, w01]
    · linarith only [q2']
    · linarith only [w01]
    · simp only [Vec3.mk.injEq]; refine ⟨?_, ?_, ?_⟩ <;> ring
    · ring
    · ring

/-- A vector points along at most one axis direction. -/
theorem pointsAlong_unique (d d' n : Vec3 ℚ) (hd : d ∈ axisDirections)
    (hd' : d' ∈ axisDirections) (h : pointsAlong d n) (h' : pointsAlong d' n) : d = d' := by
  obtain ⟨n0, n1, n2⟩ := n
  simp only [axisDirections, List.mem_cons, List.mem_singleton, List.not_mem_nil,
    or_false] at hd hd'
  rcases hd with rfl | rfl | rfl | rfl | rfl | rfl <;>
    rcases hd' with rfl | rfl | rfl | rfl | rfl | rfl <;>
    first
      | rfl
      | (exfalso
         simp only [pointsAlong, Vec3.dot, Vec3.cross, Vec3.mk.injEq] at h h'
         obtain ⟨p, c0, c1, c2⟩ := h
         obtain ⟨p', c0', c1', c2'⟩ := h'
         linarith only [p, p', c0, c1, c2, c0', c1', c2'])

/-- The values of the mesh on the program's numbers, when the low and high
coordinates on each axis are finite: the vertices are the corners of the box
from `lo` to `hi`. -/
theorem values_generateCubeVerts (x y z s sf : ℚ) (hx : round64 x = .fin x)
    (hy : round64 y = .fin y) (hz : round64 z = .fin z) (hs : round64 s = .fin s)
    (hsf : round32 s = .fin sf) (lo hi : Vec3 ℚ)
    (hl0 : roundedCoord sf x (-1) = .fin lo.c0) (hu0 : roundedCoord sf x 1 = .fin hi.c0)
    (hl1 : roundedCoord sf y (-1) = .fin lo.c1) (hu1 : roundedCoord sf y 1 = .fin hi.c1)
    (hl2 : roundedCoord sf z (-1) = .fin lo.c2) (hu2 : roundedCoord sf z 1 = .fin hi.c2) :
    (∀ v ∈ (generateCubeVerts (JSNum.fin x) (.fin y) (.fin z) (.fin s)).vertices,
      v.isFinite = true) ∧
    ∀ i, i < 8 →
      vertexAt (values (generateCubeVerts (JSNum.fin x) (.fin y) (.fin z) (.fin s)).vertices) i
        = boxPoint lo hi (canonicalCorners.getD i ⟨0, 0, 0⟩) := by
  rw [generateCubeVerts_JSNum x y z s sf hx hy hz hs hsf]
  constructor
  · simp [canonicalCorners, hl0, hu0, hl1, hu1, hl2, hu2, JSNum.isFinite]
  · intro i hi
    interval_cases i <;>
      simp only [values, vertexAt, canonicalCorners, List.map_cons, List.map_nil,
        List.flatten_cons, List.flatten_nil, List.cons_append, List.nil_append, List.append_nil,
        hl0, hu0, hl1, hu1, hl2, hu2, JSNum.toRat, boxPoint, Vec3.mk.injEq,
        List.getD_cons_zero, List.getD_cons_succ, Nat.reduceMul, Nat.reduceAdd] <;>
      refine ⟨?_, ?_, ?_⟩ <;> ring

/-- C5 (as stated) fails on the program's numbers: for position
`(1e8, 1e8, 1e8)` and scale `1` every one of the 12 triangles has the zero
normal. -/
theorem triangles_wind_outward_counterexample :
    (0 : ℚ) < (lit 1 : JSNum).toRat ∧
    ∀ t ∈ triangles (generateCubeVerts (lit 1e8) (lit 1e8) (lit 1e8) (lit 1 : JSNum)).indices,
      triangleNormal
        (values (generateCubeVerts (lit 1e8) (lit 1e8) (lit 1e8) (lit 1 : JSNum)).vertices) t
        = ⟨0, 0, 0⟩ := by
  decide!

/-- For every finite position `p = (x, y, z)` and finite scale whose
single-precision value `sf` is finite, if on each axis the low and high
coordinates the program computes are finite and `p` lies strictly between
them, then the 24 returned numbers are finite and the 12 triangles wind
outward, two to each axis direction. -/
theorem triangles_wind_outward_of_straddle (x y z s sf : ℚ) (hx : round64 x = .fin x)
    (hy : round64 y = .fin y) (hz : round64 z = .fin z) (hs : round64 s = .fin s)
    (hsf : round32 s = .fin sf) (lo hi : Vec3 ℚ)
    (hl0 : roundedCoord sf x (-1) = .fin lo.c0) (hu0 : roundedCoord sf x 1 = .fin hi.c0)
    (hl1 : roundedCoord sf y (-1) = .fin lo.c1) (hu1 : roundedCoord sf y 1 = .fin hi.c1)
    (hl2 : roundedCoord sf z (-1) = .fin lo.c2) (hu2 : roundedCoord sf z 1 = .fin hi.c2)
    (b0 : lo.c0 < x ∧ x < hi.c0) (b1 : lo.c1 < y ∧ y < hi.c1) (b2 : lo.c2 < z ∧ z < hi.c2) :
    (triangles (generateCubeVerts (JSNum.fin x) (.fin y) (.fin z) (.fin s)).indices).length
      = 12 ∧
    (∀ v ∈ (generateCubeVerts (JSNum.fin x) (.fin y) (.fin z) (.fin s)).vertices,
      v.isFinite = true) ∧
    (∀ t ∈ triangles (generateCubeVerts (JSNum.fin x) (.fin y) (.fin z) (.fin s)).indices,
      triangleNormal
          (values (generateCubeVerts (JSNum.fin x) (.fin y) (.fin z) (.fin s)).vertices) t
        ≠ ⟨0, 0, 0⟩ ∧
      0 < (triangleNormal
            (values (generateCubeVerts (JSNum.fin x) (.fin y) (.fin z) (.fin s)).vertices)
            t).dot
          ((triangleCentroid
            (values (generateCubeVerts (JSNum.fin x) (.fin y) (.fin z) (.fin s)).vertices)
            t).sub ⟨x, y, z⟩) ∧
      ∃ d ∈ axisDirections,
        pointsAlong d (triangleNormal
          (values (generateCubeVerts (JSNum.fin x) (.fin y) (.fin z) (.fin s)).vertices) t) ∧
        (vertexAt
            (values (generateCubeVerts (JSNum.fin x) (.fin y) (.fin z) (.fin s)).vertices)
            t.1).dot d
          = (vertexAt
            (values (generateCubeVerts (JSNum.fin x) (.fin y) (.fin z) (.fin s)).vertices)
            t.2.1).dot d ∧
        (vertexAt
            (values (generateCubeVerts (JSNum.fin x) (.fin y) (.fin z) (.fin s)).vertices)
            t.2.1).dot d
          = (vertexAt
            (values (generateCubeVerts (JSNum.fin x) (.fin y) (.fin z) (.fin s)).vertices)
            t.2.2).dot d) ∧
    (∀ d ∈ axisDirections,
      ((triangles (generateCubeVerts (JSNum.fin x) (.fin y) (.fin z) (.fin s)).indices).filter
        (fun t => decide (pointsAlong d (triangleNormal
          (values (generateCubeVerts (JSNum.fin x) (.fin y) (.fin z) (.fin s)).vertices)
          t)))).length = 2) := by
  obtain ⟨hfin, hv⟩ := values_generateCubeVerts x y z s sf hx hy hz hs hsf lo hi
    hl0 hu0 hl1 hu1 hl2 hu2
  have hidx : (generateCubeVerts (JSNum.fin x) (.fin y) (.fin z) (.fin s)).indices
      = boxIndices := rfl
  generalize values (generateCubeVerts (JSNum.fin x) (.fin y) (.fin z) (.fin s)).vertices
    = pts at hv ⊢
  -- every triangle of the list lies on the face of its `faceDirection`
  have face : ∀ t ∈ triangles boxIndices,
      triangleNormal pts t ≠ ⟨0, 0, 0⟩ ∧
      0 < (triangleNormal pts t).dot ((triangleCentroid pts t).sub ⟨x, y, z⟩) ∧
      pointsAlong (faceDirection t) (triangleNormal pts t) ∧
      (vertexAt pts t.1).dot (faceDirection t) = (vertexAt pts t.2.1).dot (faceDirection t) ∧
      (vertexAt pts t.2.1).dot (faceDirection t)
        = (vertexAt pts t.2.2).dot (faceDirection t) := by
    intro t ht
    rw [triangles_boxIndices] at ht
    simp only [List.mem_cons, List.mem_singleton, List.not_mem_nil, or_false] at ht
    rcases ht with rfl | rfl | rfl | rfl | rfl | rfl | rfl | rfl | rfl | rfl | rfl | rfl <;>
    · simp only [triangleNormal, triangleCentroid]
      rw [hv _ (by norm_num), hv _ (by norm_num), hv _ (by norm_num)]
      exact triangle_on_box_face lo hi ⟨x, y, z⟩ _ _ _ _ b0 b1 b2
        (by norm_num [faceDirection, canonicalCorners, axisDirections, Vec3.sub, Vec3.cross,
          Vec3.smul])
        (by norm_num [faceDirection, canonicalCorners, Vec3.sub, Vec3.cross, Vec3.smul])
        (by norm_num [faceDirection, canonicalCorners, Vec3.sub, Vec3.cross, Vec3.smul,
          Vec3.dot])
        (by norm_num [faceDirection, canonicalCorners, Vec3.sub, Vec3.cross, Vec3.smul,
          Vec3.dot])
        (by norm_num [faceDirection, canonicalCorners, Vec3.sub, Vec3.cross, Vec3.smul,
          Vec3.dot])
  have hdir : ∀ t ∈ triangles boxIndices, faceDirection t ∈ axisDirections := by
    rw [triangles_boxIndices]; decide!
  refine ⟨by rw [hidx, triangles_boxIndices]; rfl, hfin, ?_, ?_⟩
  · intro t ht
    rw [hidx] at ht
    obtain ⟨f1, f2, f3, f4, f5⟩ := face t ht
    exact ⟨f1, f2, faceDirection t, hdir t ht, f3, f4, f5⟩
  · intro d hd
    rw [hidx]
    have hcongr : (triangles boxIndices).filter
          (fun t => decide (pointsAlong d (triangleNormal pts t)))
        = (triangles boxIndices).filter (fun t => decide (d = faceDirection t)) := by
      apply List.filter_congr
      intro t ht
      have f3 := (face t ht).2.2.1
      by_cases hdt : d = faceDirection t
      · simp only [hdt, f3, decide_True]
      · have : ¬ pointsAlong d (triangleNormal pts t) := fun h =>
          hdt (pointsAlong_unique d (faceDirection t) _ hd (hdir t ht) h f3)
        simp only [hdt, this, decide_False]
    rw [hcongr]
    simp only [axisDirections, List.mem_cons, List.mem_singleton, List.not_mem_nil,
      or_false] at hd
    rcases hd with rfl | rfl | rfl | rfl | rfl | rfl <;> decide!

/-- C5 on the program's numbers: for every position `p = (x, y, z)` and scale `s` that
are doubles with `2^-140 ≤ s ≤ 2^80` and `|p_k| ≤ 2^20 * s` on each axis, the
24 returned numbers are finite, the index list gives 12 triangles, and each
triangle over the returned values has a non-zero normal
`(v_b - v_a) × (v_c - v_a)` whose dot product with `centroid - p` is strictly
positive; the normal is a positive multiple of an axis direction, the three
vertices of the triangle share their coordinate along it, and each of the six
axis directions has exactly 2 of the 12 triangles. -/
theorem triangles_wind_outward (x y z s : ℚ) (hx : round64 x = .fin x)
    (hy : round64 y = .fin y) (hz : round64 z = .fin z) (hs : round64 s = .fin s)
    (hlo : (2 : ℚ) ^ (-140 : ℤ) ≤ s) (hhi : s ≤ (2 : ℚ) ^ (80 : ℤ))
    (bx : |x| ≤ (2 : ℚ) ^ (20 : ℤ) * s) (bY : |y| ≤ (2 : ℚ) ^ (20 : ℤ) * s)
    (bz : |z| ≤ (2 : ℚ) ^ (20 : ℤ) * s) :
    (triangles (generateCubeVerts (JSNum.fin x) (.fin y) (.fin z) (.fin s)).indices).length
      = 12 ∧
    (∀ v ∈ (generateCubeVerts (JSNum.fin x) (.fin y) (.fin z) (.fin s)).vertices,
      v.isFinite = true) ∧
    (∀ t ∈ triangles (generateCubeVerts (JSNum.fin x) (.fin y) (.fin z) (.fin s)).indices,
      triangleNormal
          (values (generateCubeVerts (JSNum.fin x) (.fin y) (.fin z) (.fin s)).vertices) t
        ≠ ⟨0, 0, 0⟩ ∧
      0 < (triangleNormal
            (values (generateCubeVerts (JSNum.fin x) (.fin y) (.fin z) (.fin s)).vertices)
            t).dot
          ((triangleCentroid
            (values (generateCubeVerts (JSNum.fin x) (.fin y) (.fin z) (.fin s)).vertices)
            t).sub ⟨x, y, z⟩) ∧
      ∃ d ∈ axisDirections,
        pointsAlong d (triangleNormal
          (values (generateCubeVerts (JSNum.fin x) (.fin y) (.fin z) (.fin s)).vertices) t) ∧
        (vertexAt
            (values (generateCubeVerts (JSNum.fin x) (.fin y) (.fin z) (.fin s)).vertices)
            t.1).dot d
          = (vertexAt
            (values (generateCubeVerts (JSNum.fin x) (.fin y) (.fin z) (.fin s)).vertices)
            t.2.1).dot d ∧
        (vertexAt
            (values (generateCubeVerts (JSNum.fin x) (.fin y) (.fin z) (.fin s)).vertices)
            t.2.1).dot d
          = (vertexAt
            (values (generateCubeVerts (JSNum.fin x) (.fin y) (.fin z) (.fin s)).vertices)
            t.2.2).dot d) ∧
    (∀ d ∈ axisDirections,
      ((triangles (generateCubeVerts (JSNum.fin x) (.fin y) (.fin z) (.fin s)).indices).filter
        (fun t => decide (pointsAlong d (triangleNormal
          (values (generateCubeVerts (JSNum.fin x) (.fin y) (.fin z) (.fin s)).vertices)
          t)))).length = 2) := by
  obtain ⟨sf, hsf⟩ := round32_scale_finite s hlo hhi
  obtain ⟨l0, h0, el0, eh0, a0, c0⟩ := roundedCoord_straddle s sf x hsf hlo hhi bx
  obtain ⟨l1, h1, el1, eh1, a1, c1⟩ := roundedCoord_straddle s sf y hsf hlo hhi bY
  obtain ⟨l2, h2, el2, eh2, a2, c2⟩ := roundedCoord_straddle s sf z hsf hlo hhi bz
  exact triangles_wind_outward_of_straddle x y z s sf hx hy hz hs hsf ⟨l0, l1, l2⟩ ⟨h0, h1, h2⟩
    el0 eh0 el1 eh1 el2 eh2 ⟨a0, c0⟩ ⟨a1, c1⟩ ⟨a2, c2⟩

/-- Instance of C5 on the program's numbers at the start-up call `(0, 0, 0, 0.35)`: the
first triangle `(4, 5, 6)` has a non-zero normal. -/
theorem triangles_wind_outward_witness :
    triangleNormal
        (values (generateCubeVerts (JSNum.fin 0) (.fin 0) (.fin 0)
          (.fin (3152519739159347 / 9007199254740992))).vertices) (4, 5, 6)
      ≠ ⟨0, 0, 0⟩ :=
  ((triangles_wind_outward 0 0 0 (3152519739159347 / 9007199254740992)
      (by decide!) (by decide!) (by decide!) (by decide!) (by norm_num) (by norm_num)
      (by norm_num) (by norm_num) (by norm_num)).2.2.1 (4, 5, 6) (by decide)).1

/-! ## Camera keys on the program's numbers -/

/-- The step `0.1` as a number: the binary64 value nearest to one tenth. -/
theorem movementSpeed_JSNum :
    (movementSpeed : JSNum) = .fin (3602879701896397 / 36028797018963968) := by decide!

/-- The error of a finite binary64 rounding, measured against the result. -/
theorem round64_err_result (q r : ℚ) (h : round64 q = .fin r) :
    |r - q| ≤ (2 : ℚ) ^ (-52 : ℤ) * |r| + (2 : ℚ) ^ (-1074 : ℤ) := by
  have e := roundBin_err 53 (-1022) 1023 q r h
  have t : |q| ≤ |r| + |r - q| := by
    calc |q| = |r - (r - q)| := by ring_nf
      _ ≤ |r| + |r - q| := abs_sub _ _
  have hr := abs_nonneg r
  have he := abs_nonneg (r - q)
  norm_num at e ⊢
  linarith

/-- Adding the same number to two numbers changes their difference by at most
the two rounding errors. -/
theorem add_offset_err (a b d a' b' : ℚ) (ha : JSNum.add (.fin a) (.fin d) = .fin a')
    (hb : JSNum.add (.fin b) (.fin d) = .fin b') :
    |(b' - a') - (b - a)| ≤ (2 : ℚ) ^ (-52 : ℤ) * (|a'| + |b'|) + (2 : ℚ) ^ (-1073 : ℤ) := by
  simp only [JSNum.add] at ha hb
  have ea := round64_err_result _ _ ha
  have eb := round64_err_result _ _ hb
  have : (b' - a') - (b - a) = (b' - (b + d)) - (a' - (a + d)) := by ring
  rw [this]
  have t := abs_sub (b' - (b + d)) (a' - (a + d))
  norm_num at ea eb ⊢
  linarith

/-- Subtracting is adding the opposite number. -/
theorem JSNum.sub_fin (a : JSNum) (d : ℚ) : JSNum.sub a (.fin d) = JSNum.add a (.fin (-d)) := rfl

/-- A finite number is `fin` of its value. -/
theorem JSNum.eq_fin_of_isFinite (a : JSNum) (h : a.isFinite = true) : a = .fin a.toRat := by
  cases a <;> simp_all [JSNum.isFinite, JSNum.toRat]

/-- One component of both vectors moved by the same step: the difference of
the values changes by at most the two rounding errors. -/
theorem step_offset_err (a b d : JSNum) (dq : ℚ) (hd : d = .fin dq ∨ d = .fin (-dq))
    (ha : a.isFinite = true) (hb : b.isFinite = true)
    (ha' : (JSNum.add a d).isFinite = true) (hb' : (JSNum.add b d).isFinite = true) :
    |((JSNum.add b d).toRat - (JSNum.add a d).toRat) - (b.toRat - a.toRat)|
      ≤ (2 : ℚ) ^ (-52 : ℤ) * (|(JSNum.add a d).toRat| + |(JSNum.add b d).toRat|)
        + (2 : ℚ) ^ (-1073 : ℤ) := by
  have e1 := JSNum.eq_fin_of_isFinite a ha
  have e2 := JSNum.eq_fin_of_isFinite b hb
  have e3 := JSNum.eq_fin_of_isFinite _ ha'
  have e4 := JSNum.eq_fin_of_isFinite _ hb'
  rcases hd with rfl | rfl
  · rw [e1] at e3; rw [e2] at e4
    have := add_offset_err _ _ _ _ _ e3 e4
    rw [← e1, ← e2] at this
    exact this
  · rw [e1] at e3; rw [e2] at e4
    have := add_offset_err _ _ _ _ _ e3 e4
    rw [← e1, ← e2] at this
    exact this

/-- Every key is one of the four arrows or leaves the state unchanged. -/
theorem keydown_cases {α : Type} [JSArith α] (st : CameraState α) (key : String) :
    key = "ArrowUp" ∨ key = "ArrowDown" ∨ key = "ArrowLeft" ∨ key = "ArrowRight" ∨
      keydown st key = st := by
  by_cases h1 : key = "ArrowUp"
  · exact Or.inl h1
  by_cases h2 : key = "ArrowDown"
  · exact Or.inr (Or.inl h2)
  by_cases h3 : key = "ArrowLeft"
  · exact Or.inr (Or.inr (Or.inl h3))
  by_cases h4 : key = "ArrowRight"
  · exact Or.inr (Or.inr (Or.inr (Or.inl h4)))
  refine Or.inr (Or.inr (Or.inr (Or.inr ?_)))
  unfold keydown
  split <;> simp_all

theorem keydown_up (st : CameraState JSNum) :
    keydown st "ArrowUp" =
      ⟨⟨st.cameraPosition.c0, st.cameraPosition.c1,
        JSNum.add st.cameraPosition.c2 (.fin (3602879701896397 / 36028797018963968))⟩,
       ⟨st.observationPosition.c0, st.observationPosition.c1,
        JSNum.add st.observationPosition.c2 (.fin (3602879701896397 / 36028797018963968))⟩⟩ := by
  rw [← movementSpeed_JSNum]; rfl

theorem keydown_down (st : CameraState JSNum) :
    keydown st "ArrowDown" =
      ⟨⟨st.cameraPosition.c0, st.cameraPosition.c1,
        JSNum.add st.cameraPosition.c2 (.fin (-(3602879701896397 / 36028797018963968)))⟩,
       ⟨st.observationPosition.c0, st.observationPosition.c1,
        JSNum.add st.observationPosition.c2
          (.fin (-(3602879701896397 / 36028797018963968)))⟩⟩ := by
  rw [← JSNum.sub_fin, ← JSNum.sub_fin, ← movementSpeed_JSNum]; rfl

theorem keydown_left (st : CameraState JSNum) :
    keydown st "ArrowLeft" =
      ⟨⟨JSNum.add st.cameraPosition.c0 (.fin (3602879701896397 / 36028797018963968)),
        st.cameraPosition.c1, st.cameraPosition.c2⟩,
       ⟨JSNum.add st.observationPosition.c0 (.fin (3602879701896397 / 36028797018963968)),
        st.observationPosition.c1, st.observationPosition.c2⟩⟩ := by
  rw [← movementSpeed_JSNum]; rfl

theorem keydown_right (st : CameraState JSNum) :
    keydown st "ArrowRight" =
      ⟨⟨JSNum.add st.cameraPosition.c0 (.fin (-(3602879701896397 / 36028797018963968))),
        st.cameraPosition.c1, st.cameraPosition.c2⟩,
       ⟨JSNum.add st.observationPosition.c0
          (.fin (-(3602879701896397 / 36028797018963968))),
        st.observationPosition.c1, st.observationPosition.c2⟩⟩ := by
  rw [← JSNum.sub_fin, ← JSNum.sub_fin, ← movementSpeed_JSNum]; rfl

/-- One key event applies the same update to both vectors: components that
agree before the event agree after it, and component 1 is not touched. -/
theorem keydown_same_update (st : CameraState JSNum) (key : String) :
    (keydown st key).cameraPosition.c1 = st.cameraPosition.c1 ∧
    (keydown st key).observationPosition.c1 = st.observationPosition.c1 ∧
    (st.cameraPosition.c0 = st.observationPosition.c0 →
      (keydown st key).cameraPosition.c0 = (keydown st key).observationPosition.c0) ∧
    (st.cameraPosition.c2 = st.observationPosition.c2 →
      (keydown st key).cameraPosition.c2 = (keydown st key).observationPosition.c2) := by
  rcases keydown_cases st key with rfl | rfl | rfl | rfl | h
  · rw [keydown_up]; refine ⟨rfl, rfl, fun h => h, fun h => ?_⟩; simp only [h]
  · rw [keydown_down]; refine ⟨rfl, rfl, fun h => h, fun h => ?_⟩; simp only [h]
  · rw [keydown_left]; refine ⟨rfl, rfl, fun h => ?_, fun h => h⟩; simp only [h]
  · rw [keydown_right]; refine ⟨rfl, rfl, fun h => ?_, fun h => h⟩; simp only [h]
  · rw [h]; exact ⟨rfl, rfl, fun h => h, fun h => h⟩

/-- After any key sequence from the initial state the two vectors agree in
components 0 and 1. -/
theorem keydowns_agree (keys : List String) (st : CameraState JSNum)
    (h0 : st.cameraPosition.c0 = st.observationPosition.c0)
    (h1 : st.cameraPosition.c1 = .fin 0) (h2 : st.observationPosition.c1 = .fin 0) :
    (keydowns st keys).cameraPosition.c0 = (keydowns st keys).observationPosition.c0 ∧
    (keydowns st keys).cameraPosition.c1 = .fin 0 ∧
    (keydowns st keys).observationPosition.c1 = .fin 0 := by
  induction keys generalizing st with
  | nil => exact ⟨h0, h1, h2⟩
  | cons k ks ih =>
    obtain ⟨a, b, c, -⟩ := keydown_same_update st k
    have := ih (keydown st k) (c h0) (a.trans h1) (b.trans h2)
    simpa only [keydowns, List.foldl_cons] using this

/-- One key event changes each component of the difference of the two vectors
by at most two rounding errors. -/
theorem keydown_offset_err (st : CameraState JSNum) (key : String)
    (hf : st.finite) (hf' : (keydown st key).finite) :
    (offset (keydown st key)).c1 = (offset st).c1 ∧
    |(offset (keydown st key)).c0 - (offset st).c0|
      ≤ (2 : ℚ) ^ (-52 : ℤ) * (|(keydown st key).cameraPosition.c0.toRat|
          + |(keydown st key).observationPosition.c0.toRat|) + (2 : ℚ) ^ (-1073 : ℤ) ∧
    |(offset (keydown st key)).c2 - (offset st).c2|
      ≤ (2 : ℚ) ^ (-52 : ℤ) * (|(keydown st key).cameraPosition.c2.toRat|
          + |(keydown st key).observationPosition.c2.toRat|) + (2 : ℚ) ^ (-1073 : ℤ) := by
  have pos : ∀ u v : ℚ, (0 : ℚ) ≤ (2 : ℚ) ^ (-52 : ℤ) * (|u| + |v|) + (2 : ℚ) ^ (-1073 : ℤ) :=
    fun u v => by positivity
  obtain ⟨f0, f1, f2, g0, g1, g2⟩ := hf
  rcases keydown_cases st key with rfl | rfl | rfl | rfl | h
  · rw [keydown_up] at hf' ⊢
    obtain ⟨-, -, f2', -, -, g2'⟩ := hf'
    refine ⟨rfl, ?_, ?_⟩
    · simp only [offset, sub_self, abs_zero]; exact pos _ _
    · exact step_offset_err _ _ _ _ (Or.inl rfl) f2 g2 f2' g2'
  · rw [keydown_down] at hf' ⊢
    obtain ⟨-, -, f2', -, -, g2'⟩ := hf'
    refine ⟨rfl, ?_, ?_⟩
    · simp only [offset, sub_self, abs_zero]; exact pos _ _
    · exact step_offset_err _ _ _ _ (Or.inr rfl) f2 g2 f2' g2'
  · rw [keydown_left] at hf' ⊢
    obtain ⟨f0', -, -, g0', -, -⟩ := hf'
    refine ⟨rfl, ?_, ?_⟩
    · exact step_offset_err _ _ _ _ (Or.inl rfl) f0 g0 f0' g0'
    · simp only [offset, sub_self, abs_zero]; exact pos _ _
  · rw [keydown_right] at hf' ⊢
    obtain ⟨f0', -, -, g0', -, -⟩ := hf'
    refine ⟨rfl, ?_, ?_⟩
    · exact step_offset_err _ _ _ _ (Or.inr rfl) f0 g0 f0' g0'
    · simp only [offset, sub_self, abs_zero]; exact pos _ _
  · rw [h]
    refine ⟨rfl, ?_, ?_⟩ <;> simp only [sub_self, abs_zero] <;> exact pos _ _

/-- C3 (as stated) fails on the program's numbers: in the state reached from
the initial one by two `ArrowUp` events, `ArrowUp` then `ArrowDown` turns the
observation depth `0.2` (`3602879701896397 / 2^54`) into
`0.20000000000000004` (`7205759403792795 / 2^55`). -/
theorem arrowUp_then_arrowDown_counterexample :
    (keydowns (initialCamera : CameraState JSNum)
        ["ArrowUp", "ArrowUp"]).observationPosition.c2
      = .fin (3602879701896397 / 18014398509481984) ∧
    (keydown (keydown (keydowns (initialCamera : CameraState JSNum) ["ArrowUp", "ArrowUp"])
        "ArrowUp") "ArrowDown").observationPosition.c2
      = .fin (7205759403792795 / 36028797018963968) ∧
    keydown (keydown (keydowns (initialCamera : CameraState JSNum) ["ArrowUp", "ArrowUp"])
        "ArrowUp") "ArrowDown"
      ≠ keydowns (initialCamera : CameraState JSNum) ["ArrowUp", "ArrowUp"] := by
  decide!

/-- C3 on the program's numbers: from the initial state `(0,0,-4)`, `(0,0,0)`, `ArrowUp`
followed by `ArrowDown` gives back both vectors exactly.  From an arbitrary
state the two events give back components 0 and 1 of both vectors exactly, and
component 2 of each vector up to the two roundings: with `a1` the value after
`ArrowUp` and `a2` the value after `ArrowDown`, `|a2 - a|` is at most
`2^-52 (|a1| + |a2|) + 2^-1073`. -/
theorem arrowUp_then_arrowDown (st : CameraState JSNum) :
    keydown (keydown (initialCamera : CameraState JSNum) "ArrowUp") "ArrowDown"
      = initialCamera ∧
    (keydown (keydown (initialCamera : CameraState JSNum) "ArrowUp") "ArrowDown").cameraPosition
      = ⟨.fin 0, .fin 0, .fin (-4)⟩ ∧
    (keydown (keydown (initialCamera : CameraState JSNum) "ArrowUp")
        "ArrowDown").observationPosition
      = ⟨.fin 0, .fin 0, .fin 0⟩ ∧
    (keydown (keydown st "ArrowUp") "ArrowDown").cameraPosition.c0 = st.cameraPosition.c0 ∧
    (keydown (keydown st "ArrowUp") "ArrowDown").cameraPosition.c1 = st.cameraPosition.c1 ∧
    (keydown (keydown st "ArrowUp") "ArrowDown").observationPosition.c0
      = st.observationPosition.c0 ∧
    (keydown (keydown st "ArrowUp") "ArrowDown").observationPosition.c1
      = st.observationPosition.c1 ∧
    (∀ a a1 a2 : ℚ, st.cameraPosition.c2 = .fin a →
      (keydown st "ArrowUp").cameraPosition.c2 = .fin a1 →
      (keydown (keydown st "ArrowUp") "ArrowDown").cameraPosition.c2 = .fin a2 →
      |a2 - a| ≤ (2 : ℚ) ^ (-52 : ℤ) * (|a1| + |a2|) + (2 : ℚ) ^ (-1073 : ℤ)) ∧
    (∀ b b1 b2 : ℚ, st.observationPosition.c2 = .fin b →
      (keydown st "ArrowUp").observationPosition.c2 = .fin b1 →
      (keydown (keydown st "ArrowUp") "ArrowDown").observationPosition.c2 = .fin b2 →
      |b2 - b| ≤ (2 : ℚ) ^ (-52 : ℤ) * (|b1| + |b2|) + (2 : ℚ) ^ (-1073 : ℤ)) := by
  have round_trip : ∀ (z : JSNum) (a a1 a2 : ℚ), z = .fin a →
      JSNum.add z (.fin (3602879701896397 / 36028797018963968)) = .fin a1 →
      JSNum.add (JSNum.add z (.fin (3602879701896397 / 36028797018963968)))
        (.fin (-(3602879701896397 / 36028797018963968))) = .fin a2 →
      |a2 - a| ≤ (2 : ℚ) ^ (-52 : ℤ) * (|a1| + |a2|) + (2 : ℚ) ^ (-1073 : ℤ) := by
    intro z a a1 a2 h0 h1 h2
    rw [h1] at h2
    rw [h0] at h1
    simp only [JSNum.add] at h1 h2
    have e1 := round64_err_result _ _ h1
    have e2 := round64_err_result _ _ h2
    have : a2 - a = (a2 - (a1 + -(3602879701896397 / 36028797018963968)))
        + (a1 - (a + 3602879701896397 / 36028797018963968)) := by ring
    rw [this]
    have t := abs_add (a2 - (a1 + -(3602879701896397 / 36028797018963968)))
      (a1 - (a + 3602879701896397 / 36028797018963968))
    norm_num at e1 e2 t ⊢
    linarith
  refine ⟨by decide!, by decide!, by decide!, ?_, ?_, ?_, ?_, ?_, ?_⟩
  · rw [keydown_down, keydown_up]
  · rw [keydown_down, keydown_up]
  · rw [keydown_down, keydown_up]
  · rw [keydown_down, keydown_up]
  · rw [keydown_down, keydown_up]
    exact round_trip st.cameraPosition.c2
  · rw [keydown_down, keydown_up]
    exact round_trip st.observationPosition.c2

/-- Instance of C3 on the program's numbers at the state reached by two `ArrowUp` events, where
the round trip is not exact: the observation depth moves by `2^-55`, within
the bound. -/
theorem arrowUp_then_arrowDown_witness :
    |(7205759403792795 / 36028797018963968 : ℚ) - 3602879701896397 / 18014398509481984|
      ≤ (2 : ℚ) ^ (-52 : ℤ) * (|(5404319552844596 / 18014398509481984 : ℚ)|
          + |(7205759403792795 / 36028797018963968 : ℚ)|) + (2 : ℚ) ^ (-1073 : ℤ) :=
  (arrowUp_then_arrowDown
      (keydowns (initialCamera : CameraState JSNum) ["ArrowUp", "ArrowUp"])).2.2.2.2.2.2.2.2
    (3602879701896397 / 18014398509481984) (5404319552844596 / 18014398509481984)
    (7205759403792795 / 36028797018963968) (by decide!) (by decide!) (by decide!)

/-- Adding a step of at most `1/8` to a number of moderate size gives a finite
number within `2^-34` of the exact sum. -/
theorem JSNum.add_step (a d : ℚ) (ha : |a| ≤ (2 : ℚ) ^ (18 : ℤ)) (hd : |d| ≤ 1 / 8) :
    ∃ r, JSNum.add (.fin a) (.fin d) = .fin r ∧ |r - (a + d)| ≤ (2 : ℚ) ^ (-34 : ℤ) := by
  have hq : |a + d| ≤ (2 : ℚ) ^ (18 : ℤ) + 1 / 8 :=
    (abs_add a d).trans (add_le_add ha hd)
  obtain ⟨r, hr⟩ := roundBin_finite 53 (-1022) 1023 (a + d) (by
    norm_num at hq ⊢
    linarith only [hq, abs_nonneg (a + d)])
  refine ⟨r, ?_, ?_⟩
  · simp only [JSNum.add]
    exact hr
  · have e := roundBin_err 53 (-1022) 1023 (a + d) r hr
    norm_num at e hq ⊢
    linarith only [e, hq]

/-- The size of a number after a step: at most `1/5` more than before. -/
theorem JSNum.add_step_size (a d r : ℚ) (hd : |d| ≤ 1 / 8)
    (e : |r - (a + d)| ≤ (2 : ℚ) ^ (-34 : ℤ)) : |r| ≤ |a| + 1 / 5 := by
  have t : |r| ≤ |a + d| + |r - (a + d)| := by
    calc |r| = |(a + d) + (r - (a + d))| := by ring_nf
      _ ≤ |a + d| + |r - (a + d)| := abs_add _ _
  have t2 := abs_add a d
  norm_num at e ⊢
  linarith only [t, t2, e, hd]

/-- The difference of two numbers after the same step differs from the
difference before by at most `2^-33`. -/
theorem JSNum.add_step_diff (a b d ra rb : ℚ) (ea : |ra - (a + d)| ≤ (2 : ℚ) ^ (-34 : ℤ))
    (eb : |rb - (b + d)| ≤ (2 : ℚ) ^ (-34 : ℤ)) (c m : ℚ) (h : |(b - a) - c| ≤ m) :
    |(rb - ra) - c| ≤ m + (2 : ℚ) ^ (-33 : ℤ) := by
  have e : (rb - ra) - c = ((b - a) - c) + ((rb - (b + d)) - (ra - (a + d))) := by ring
  rw [e]
  have t1 := abs_add ((b - a) - c) ((rb - (b + d)) - (ra - (a + d)))
  have t2 := abs_sub (rb - (b + d)) (ra - (a + d))
  norm_num at ea eb t1 t2 ⊢
  linarith only [ea, eb, t1, t2, h]

/-- The camera along a sequence of key events: as long as at most `2^20`
events have been handled, both vectors stay finite, agree in components 0 and
1, and the depth of their difference stays within `2^-33` per event of `4`. -/
theorem keydowns_depth (keys : List String) :
    ∀ (st : CameraState JSNum) (n : ℕ) (a b e : ℚ), n + keys.length ≤ 2 ^ 20 →
      st = ⟨⟨.fin e, .fin 0, .fin a⟩, ⟨.fin e, .fin 0, .fin b⟩⟩ →
      |a| ≤ 4 + (n : ℚ) / 5 → |b| ≤ (n : ℚ) / 5 → |e| ≤ (n : ℚ) / 5 →
      |(b - a) - 4| ≤ (n : ℚ) * (2 : ℚ) ^ (-33 : ℤ) →
      ∃ a' b' e', keydowns st keys = ⟨⟨.fin e', .fin 0, .fin a'⟩, ⟨.fin e', .fin 0, .fin b'⟩⟩ ∧
        |(b' - a') - 4| ≤ ((n + keys.length : ℕ) : ℚ) * (2 : ℚ) ^ (-33 : ℤ) := by
  induction keys with
  | nil =>
    intro st n a b e _ hst _ _ _ hd
    exact ⟨a, b, e, by simpa only [keydowns, List.foldl_nil] using hst,
      by simpa only [List.length_nil, Nat.add_zero] using hd⟩
  | cons k ks ih =>
    intro st n a b e hn hst ha hb he hd
    subst hst
    have hlen : n + 1 + ks.length ≤ 2 ^ 20 := by
      simp only [List.length_cons] at hn
      omega
    have hn1 : ((n : ℚ) + 1) ≤ 1048576 := by
      have : n + 1 ≤ 1048576 := by omega
      exact_mod_cast this
    have hcast : (((n + 1 : ℕ)) : ℚ) = (n : ℚ) + 1 := by push_cast; ring
    have A : |a| ≤ (2 : ℚ) ^ (18 : ℤ) := by norm_num; linarith only [ha, hn1]
    have B : |b| ≤ (2 : ℚ) ^ (18 : ℤ) := by norm_num; linarith only [hb, hn1]
    have E : |e| ≤ (2 : ℚ) ^ (18 : ℤ) := by norm_num; linarith only [he, hn1]
    have hw : |(3602879701896397 / 36028797018963968 : ℚ)| ≤ 1 / 8 := by
      rw [abs_of_pos (by norm_num)]; norm_num
    have hw' : |(-(3602879701896397 / 36028797018963968) : ℚ)| ≤ 1 / 8 := by
      rw [abs_neg]; exact hw
    have hfin : ((n + 1 + ks.length : ℕ) : ℚ) = ((n + (k :: ks).length : ℕ) : ℚ) := by
      simp only [List.length_cons]
      congr 1
      omega
    have hval : keydowns (⟨⟨.fin e, .fin 0, .fin a⟩, ⟨.fin e, .fin 0, .fin b⟩⟩ : CameraState JSNum)
        (k :: ks) = keydowns (keydown ⟨⟨.fin e, .fin 0, .fin a⟩, ⟨.fin e, .fin 0, .fin b⟩⟩ k) ks := by
      simp only [keydowns, List.foldl_cons]
    rw [hval, ← hfin]
    have mono_a : |a| ≤ 4 + ((n + 1 : ℕ) : ℚ) / 5 := by rw [hcast]; linarith only [ha]
    have mono_b : |b| ≤ ((n + 1 : ℕ) : ℚ) / 5 := by rw [hcast]; linarith only [hb]
    have mono_e : |e| ≤ ((n + 1 : ℕ) : ℚ) / 5 := by rw [hcast]; linarith only [he]
    have mono_d : |(b - a) - 4| ≤ ((n + 1 : ℕ) : ℚ) * (2 : ℚ) ^ (-33 : ℤ) := by
      rw [hcast]
      have : (0 : ℚ) ≤ (2 : ℚ) ^ (-33 : ℤ) := by positivity
      linarith only [hd, this]
    have depth : ∀ d : ℚ, |d| ≤ 1 / 8 →
        ∃ a' b', JSNum.add (.fin a) (.fin d) = .fin a' ∧ JSNum.add (.fin b) (.fin d) = .fin b' ∧
          |a'| ≤ 4 + ((n + 1 : ℕ) : ℚ) / 5 ∧ |b'| ≤ ((n + 1 : ℕ) : ℚ) / 5 ∧
          |(b' - a') - 4| ≤ ((n + 1 : ℕ) : ℚ) * (2 : ℚ) ^ (-33 : ℤ) := by
      intro d hd'
      obtain ⟨a', ha', ea⟩ := JSNum.add_step a d A hd'
      obtain ⟨b', hb', eb⟩ := JSNum.add_step b d B hd'
      refine ⟨a', b', ha', hb', ?_, ?_, ?_⟩
      · rw [hcast]
        have := JSNum.add_step_size a d a' hd' ea
        linarith only [this, ha]
      · rw [hcast]
        have := JSNum.add_step_size b d b' hd' eb
        linarith only [this, hb]
      · rw [hcast]
        have := JSNum.add_step_diff a b d a' b' ea eb 4 _ hd
        linarith only [this]
    have side : ∀ d : ℚ, |d| ≤ 1 / 8 →
        ∃ e', JSNum.add (.fin e) (.fin d) = .fin e' ∧ |e'| ≤ ((n + 1 : ℕ) : ℚ) / 5 := by
      intro d hd'
      obtain ⟨e', he', ee⟩ := JSNum.add_step e d E hd'
      refine ⟨e', he', ?_⟩
      rw [hcast]
      have := JSNum.add_step_size e d e' hd' ee
      linarith only [this, he]
    rcases keydown_cases (⟨⟨.fin e, .fin 0, .fin a⟩, ⟨.fin e, .fin 0, .fin b⟩⟩ : CameraState JSNum) k
      with rfl | rfl | rfl | rfl | h
    · obtain ⟨a', b', ha', hb', sa, sb, sd⟩ := depth _ hw
      exact ih _ (n + 1) a' b' e hlen (by rw [keydown_up, ha', hb']) sa sb mono_e sd
    · obtain ⟨a', b', ha', hb', sa, sb, sd⟩ := depth _ hw'
      exact ih _ (n + 1) a' b' e hlen (by rw [keydown_down, ha', hb']) sa sb mono_e sd
    · obtain ⟨e', he', se⟩ := side _ hw
      exact ih _ (n + 1) a b e' hlen (by rw [keydown_left, he']) mono_a mono_b se mono_d
    · obtain ⟨e', he', se⟩ := side _ hw'
      exact ih _ (n + 1) a b e' hlen (by rw [keydown_right, he']) mono_a mono_b se mono_d
    · exact ih _ (n + 1) a b e hlen h mono_a mono_b mono_e mono_d

/-- Up to `2^20` key events from the initial state: the camera state is
finite, `observationPosition - cameraPosition` is `(0, 0, d)` with `d` within
`2^-33` per event of `4`, so `d` is positive and the eye is not the target. -/
theorem keydowns_initial_depth (keys : List String) (hlen : keys.length ≤ 2 ^ 20) :
    (keydowns (initialCamera : CameraState JSNum) keys).finite ∧
    (offset (keydowns (initialCamera : CameraState JSNum) keys)).c0 = 0 ∧
    (offset (keydowns (initialCamera : CameraState JSNum) keys)).c1 = 0 ∧
    |(offset (keydowns (initialCamera : CameraState JSNum) keys)).c2 - 4|
      ≤ (keys.length : ℚ) * (2 : ℚ) ^ (-33 : ℤ) ∧
    0 < (offset (keydowns (initialCamera : CameraState JSNum) keys)).c2 ∧
    (keydowns (initialCamera : CameraState JSNum) keys).cameraPosition
      ≠ (keydowns (initialCamera : CameraState JSNum) keys).observationPosition := by
  have h0 : (initialCamera : CameraState JSNum)
      = ⟨⟨.fin 0, .fin 0, .fin (-4)⟩, ⟨.fin 0, .fin 0, .fin 0⟩⟩ := by decide!
  obtain ⟨a, b, e, hst, hd⟩ := keydowns_depth keys initialCamera 0 (-4) 0 0
    (by simpa using hlen) h0 (by norm_num) (by norm_num) (by norm_num) (by norm_num)
  simp only [Nat.zero_add] at hd
  have hlenq : (keys.length : ℚ) ≤ 1048576 := by exact_mod_cast hlen
  have hpos : 0 < b - a := by
    have := (abs_le.mp hd).1
    norm_num at this
    linarith only [this, hlenq]
  rw [hst]
  refine ⟨?_, ?_, ?_, ?_, ?_, ?_⟩
  · simp [CameraState.finite, JSNum.isFinite]
  · simp [offset, JSNum.toRat]
  · simp [offset, JSNum.toRat]
  · simpa [offset, JSNum.toRat] using hd
  · simpa [offset, JSNum.toRat] using hpos
  · intro h
    have : a = b := by
      have h2 := congrArg Vec3.c2 h
      simpa using h2
    linarith only [this, hpos]

/-- C6 (as stated) fails on the program's numbers: one `ArrowDown` from the
initial state changes `observationPosition - cameraPosition` from `(0,0,4)` to
`(0, 0, 4 - 13 * 2^-55)`. -/
theorem keydown_rigid_translation_counterexample :
    offset (initialCamera : CameraState JSNum) = ⟨0, 0, 4⟩ ∧
    offset (keydown (initialCamera : CameraState JSNum) "ArrowDown")
      = ⟨0, 0, 144115188075855859 / 36028797018963968⟩ ∧
    offset (keydown (initialCamera : CameraState JSNum) "ArrowDown")
      ≠ offset (initialCamera : CameraState JSNum) ∧
    offset (keydowns (initialCamera : CameraState JSNum) ["ArrowDown"]) ≠ ⟨0, 0, 4⟩ := by
  decide!

/-- C6 on the program's numbers: the key handler applies one and the same update to the same
component of both vectors.  For every state and key, component 1 of both is
untouched and components that agree before the event agree after it; between
finite states each component of `observationPosition - cameraPosition` changes
by at most the two rounding errors, `2^-52 (|camera'| + |observation'|) +
2^-1073`, and component 1 not at all.  Hence in every state reachable from the
initial state the two vectors agree exactly in components 0 and 1:
`observationPosition - cameraPosition` is `(0, 0, d)`, parallel to the initial
look axis.  After at most `2^20` key events the state is finite and `d` is
within `2^-33` per event of `4`, so `d` is positive and the eye does not
coincide with the target. -/
theorem keydown_rigid_translation (st : CameraState JSNum) (key : String)
    (keys : List String) :
    ((keydown st key).cameraPosition.c1 = st.cameraPosition.c1 ∧
     (keydown st key).observationPosition.c1 = st.observationPosition.c1 ∧
     (st.cameraPosition.c0 = st.observationPosition.c0 →
       (keydown st key).cameraPosition.c0 = (keydown st key).observationPosition.c0) ∧
     (st.cameraPosition.c2 = st.observationPosition.c2 →
       (keydown st key).cameraPosition.c2 = (keydown st key).observationPosition.c2)) ∧
    (st.finite → (keydown st key).finite →
      (offset (keydown st key)).c1 = (offset st).c1 ∧
      |(offset (keydown st key)).c0 - (offset st).c0|
        ≤ (2 : ℚ) ^ (-52 : ℤ) * (|(keydown st key).cameraPosition.c0.toRat|
            + |(keydown st key).observationPosition.c0.toRat|) + (2 : ℚ) ^ (-1073 : ℤ) ∧
      |(offset (keydown st key)).c2 - (offset st).c2|
        ≤ (2 : ℚ) ^ (-52 : ℤ) * (|(keydown st key).cameraPosition.c2.toRat|
            + |(keydown st key).observationPosition.c2.toRat|) + (2 : ℚ) ^ (-1073 : ℤ)) ∧
    ((keydowns (initialCamera : CameraState JSNum) keys).cameraPosition.c0
        = (keydowns (initialCamera : CameraState JSNum) keys).observationPosition.c0 ∧
     (keydowns (initialCamera : CameraState JSNum) keys).cameraPosition.c1 = .fin 0 ∧
     (keydowns (initialCamera : CameraState JSNum) keys).observationPosition.c1 = .fin 0) ∧
    ((offset (keydowns (initialCamera : CameraState JSNum) keys)).c0 = 0 ∧
     (offset (keydowns (initialCamera : CameraState JSNum) keys)).c1 = 0) ∧
    (keys.length ≤ 2 ^ 20 →
      (keydowns (initialCamera : CameraState JSNum) keys).finite ∧
      |(offset (keydowns (initialCamera : CameraState JSNum) keys)).c2 - 4|
        ≤ (keys.length : ℚ) * (2 : ℚ) ^ (-33 : ℤ) ∧
      0 < (offset (keydowns (initialCamera : CameraState JSNum) keys)).c2 ∧
      (keydowns (initialCamera : CameraState JSNum) keys).cameraPosition
        ≠ (keydowns (initialCamera : CameraState JSNum) keys).observationPosition) := by
  have hag := keydowns_agree keys (initialCamera : CameraState JSNum)
    (by decide!) (by decide!) (by decide!)
  refine ⟨keydown_same_update st key, keydown_offset_err st key, hag, ⟨?_, ?_⟩, ?_⟩
  · simp only [offset, hag.1, sub_self]
  · simp only [offset, hag.2.1, hag.2.2, sub_self]
  · intro hlen
    obtain ⟨hf, -, -, hd, hp, hne⟩ := keydowns_initial_depth keys hlen
    exact ⟨hf, hd, hp, hne⟩

/-- Instance of C6 on the program's numbers: one `ArrowDown` from the initial state moves
the depth of `observationPosition - cameraPosition` by `13 * 2^-55`, within
the bound. -/
theorem keydown_rigid_translation_witness :
    |(offset (keydown (initialCamera : CameraState JSNum) "ArrowDown")).c2
        - (offset (initialCamera : CameraState JSNum)).c2|
      ≤ (2 : ℚ) ^ (-52 : ℤ)
          * (|(keydown (initialCamera : CameraState JSNum) "ArrowDown").cameraPosition.c2.toRat|
            + |(keydown (initialCamera : CameraState JSNum)
                "ArrowDown").observationPosition.c2.toRat|) + (2 : ℚ) ^ (-1073 : ℤ) :=
  ((keydown_rigid_translation (initialCamera : CameraState JSNum) "ArrowDown" []).2.1
    (by unfold CameraState.finite; decide!) (by unfold CameraState.finite; decide!)).2.2

end Cubes
